import Mathlib

/-!
# SmartCalendar — verification of the schedule pipeline and event store

A shallow embedding of the date utilities, Korean date-range inference,
schedule-proposal pipeline, event store / override model, backup
restore and OpenRouter transport of the SmartCalendar application
(`src/components/ThemeSwitcher.tsx`, `src/unnamed/part_000`), together
with theorems settling the frozen claims about them.

JavaScript `Date` objects are modelled date-only as a day number
(days since the Unix epoch), with the standard civil-calendar
conversions; `string` values are Lean `String`s; JSON values coming
from the model are represented by structures with `Option` fields
mirroring the dynamic field accesses of the source.
-/

namespace SmartCal

/-! ## Decimal strings (JS `String(n)` and `String.prototype.padStart`) -/

/-- Decimal digit list of a natural number, fuelled structural recursion
(`fuel > n` suffices). -/
def natDecDigitsAux : Nat → Nat → List Char
  | 0, _ => []
  | fuel+1, n =>
    if n < 10 then [Nat.digitChar n]
    else natDecDigitsAux fuel (n / 10) ++ [Nat.digitChar (n % 10)]

/-- Decimal string of a natural number, as JS `String(n)`. -/
def natDecStr (n : Nat) : String := ⟨natDecDigitsAux (n + 1) n⟩

/-- Decimal string of an integer, as JS `String(i)`. -/
def intDecStr (i : Int) : String :=
  if i < 0 then "-" ++ natDecStr i.natAbs else natDecStr i.toNat

/-- JS `s.padStart(w, "0")`: left-pad with zeros up to width `w`. -/
def padStartZero (w : Nat) (s : String) : String :=
  ⟨List.replicate (w - s.length) '0' ++ s.data⟩

/-! ## Civil calendar arithmetic (JS `Date` semantics, date-only)

`daysFromCivil`/`civilFromDays` are the standard proleptic-Gregorian
conversions between a `(year, month 1..12, day)` triple and a count of
days since 1970-01-01, using floor division throughout. -/

/-- Day number since the epoch of a civil date (month 1..12, day ≥ 1;
out-of-range days overflow arithmetically, as JS `Date` does). -/
def daysFromCivil (y m d : Int) : Int :=
  let yy := if m ≤ 2 then y - 1 else y
  let era := Int.fdiv yy 400
  let yoe := yy - era * 400
  let mp := Int.fmod (m + 9) 12
  let doy := Int.fdiv (153 * mp + 2) 5 + d - 1
  let doe := yoe * 365 + Int.fdiv yoe 4 - Int.fdiv yoe 100 + doy
  era * 146097 + doe - 719468

/-- Civil date `(year, month 1..12, day)` of a day number. -/
def civilFromDays (z : Int) : Int × Int × Int :=
  let z2 := z + 719468
  let era := Int.fdiv z2 146097
  let doe := z2 - era * 146097
  let yoe := Int.fdiv (doe - Int.fdiv doe 1460 + Int.fdiv doe 36524 - Int.fdiv doe 146096) 365
  let y := yoe + era * 400
  let doy := doe - (365 * yoe + Int.fdiv yoe 4 - Int.fdiv yoe 100)
  let mp := Int.fdiv (5 * doy + 2) 153
  let d := doy - Int.fdiv (153 * mp + 2) 5 + 1
  let m := mp + (if mp < 10 then 3 else -9)
  (if m ≤ 2 then y + 1 else y, m, d)

/-- A JS `Date`, date-only (the code strips the time of day wherever it
compares or formats dates). -/
structure JSDate where
  days : Int
deriving DecidableEq, Repr

/-- JS `new Date(y, monthIndex, d)`: `monthIndex` is 0-based and is
normalised into the year; the day is an offset from the 1st. -/
def mkJSDate (y monthIndex d : Int) : JSDate :=
  ⟨daysFromCivil (y + Int.fdiv monthIndex 12) (Int.fmod monthIndex 12 + 1) 1 + (d - 1)⟩

def JSDate.getFullYear (dt : JSDate) : Int := (civilFromDays dt.days).1

def JSDate.getMonth (dt : JSDate) : Int := (civilFromDays dt.days).2.1 - 1

def JSDate.getDate (dt : JSDate) : Int := (civilFromDays dt.days).2.2

/-! ## Date-key utilities (`ThemeSwitcher.tsx` lines 113-133, 2675-2718) -/

/-- `formatDateKey`: zero-padded `YYYY-MM-DD` from a date's components
(the year is not padded, months/days are padded to width 2). -/
def formatDateKey (dt : JSDate) : String :=
  intDecStr dt.getFullYear ++ "-" ++
  padStartZero 2 (intDecStr (dt.getMonth + 1)) ++ "-" ++
  padStartZero 2 (intDecStr dt.getDate)

def digitVal (c : Char) : Nat := c.toNat - '0'.toNat

/-- Shape check and numeric split of a `\d{4}-\d{2}-\d{2}` key: returns
`(year, month, day)` exactly when the regex of `isDateKeyLike` matches. -/
def dateKeyShape : List Char → Option (Nat × Nat × Nat)
  | [a, b, c, d, '-', e, f, '-', g, h] =>
    if a.isDigit && b.isDigit && c.isDigit && d.isDigit &&
       e.isDigit && f.isDigit && g.isDigit && h.isDigit then
      some (((digitVal a * 10 + digitVal b) * 10 + digitVal c) * 10 + digitVal d,
            digitVal e * 10 + digitVal f,
            digitVal g * 10 + digitVal h)
    else none
  | _ => none

/-- `isDateKeyLike`: the `^\d{4}-\d{2}-\d{2}$` regex test. -/
def isDateKeyLike (s : String) : Bool := (dateKeyShape s.data).isSome

/-- `isValidDateKey`: regex shape plus a round-trip through `Date`
construction without component drift. -/
def isValidDateKey (dateKey : String) : Bool :=
  match dateKeyShape dateKey.data with
  | none => false
  | some (y, m, d) =>
    let obj := mkJSDate (y : Int) ((m : Int) - 1) (d : Int)
    obj.getFullYear == (y : Int) && obj.getMonth == (m : Int) - 1 && obj.getDate == (d : Int)

/-- `shiftDateKeyByDays`: arithmetic day shift; invalid input is passed
through unchanged. -/
def shiftDateKeyByDays (dateKey : String) (deltaDays : Int) : String :=
  if isValidDateKey dateKey then
    match dateKeyShape dateKey.data with
    | some (y, m, d) => formatDateKey ⟨(mkJSDate (y : Int) ((m : Int) - 1) (d : Int)).days + deltaDays⟩
    | none => dateKey
  else dateKey

/-- Code-point lexicographic three-way comparison; models
`a.localeCompare(b)`, which agrees with it on fixed-width ASCII keys. -/
def lexCmpChars : List Char → List Char → Int
  | [], [] => 0
  | [], _ :: _ => -1
  | _ :: _, [] => 1
  | a :: as, b :: bs => if a < b then -1 else if b < a then 1 else lexCmpChars as bs

/-- `compareDateKey`. -/
def compareDateKey (a b : String) : Int := lexCmpChars a.data b.data

/-- `clampMinDateKey`. -/
def clampMinDateKey (dateKey minDateKey : String) : String :=
  if compareDateKey dateKey minDateKey < 0 then minDateKey else dateKey

/-- `clampMaxDateKey`. -/
def clampMaxDateKey (dateKey maxDateKey : String) : String :=
  if compareDateKey dateKey maxDateKey > 0 then maxDateKey else dateKey

/-! ## String helpers (JS `trim` and `includes`) -/

/-- The JS `\s` whitespace set (also what `String.prototype.trim` strips). -/
def isJsSpace (c : Char) : Bool :=
  c == ' ' || c == '\t' || c == '\n' || c == '\r' ||
  c.toNat == 11 || c.toNat == 12 || c.toNat == 0xa0 || c.toNat == 0x1680 ||
  (0x2000 ≤ c.toNat && c.toNat ≤ 0x200a) || c.toNat == 0x2028 || c.toNat == 0x2029 ||
  c.toNat == 0x202f || c.toNat == 0x205f || c.toNat == 0x3000 || c.toNat == 0xfeff

/-- JS `s.trim()`. -/
def jsTrim (s : String) : String :=
  ⟨((s.data.dropWhile isJsSpace).reverse.dropWhile isJsSpace).reverse⟩

/-- `leadsWith k s`: `k` is an initial segment of `s`. -/
def leadsWith : List Char → List Char → Bool
  | [], _ => true
  | _ :: _, [] => false
  | a :: as, b :: bs => a == b && leadsWith as bs

def hasSubAux (k : List Char) : List Char → Bool
  | [] => leadsWith k []
  | c :: rest => leadsWith k (c :: rest) || hasSubAux k rest

/-- JS `s.includes(k)`. -/
def strIncludes (s k : String) : Bool := hasSubAux k.data s.data

/-- JS `s.slice(0, n)` for `n ≥ 0`. -/
def strTake (s : String) (n : Nat) : String := ⟨s.data.take n⟩

/-! ## Regex tokens for the date-range patterns

The three live patterns of `inferExecutionWindowFromText` are sequences
of these tokens; matching is greedy with backtracking and the overall
search is leftmost, as in JS `String.prototype.match`. -/

inductive RTok where
  /-- `(\d{1,2})`: one or two digits, greedy, captured as a number. -/
  | cap : RTok
  /-- `\s*`. -/
  | ws : RTok
  /-- a literal character. -/
  | lit : Char → RTok
  /-- `c?`, greedy. -/
  | opt : Char → RTok
  /-- a character class `[..]`. -/
  | cls : List Char → RTok
deriving DecidableEq, Repr

/-- Match a token sequence at the head of the input, greedy alternatives
first, backtracking on failure; returns the captured numbers. Fuelled
structural recursion: every step shortens `toks.length + cs.length`, so
any fuel above that sum is adequate. -/
def matchToksAux : Nat → List RTok → List Char → Option (List Nat)
  | 0, _, _ => none
  | _ + 1, [], _ => some []
  | _ + 1, RTok.cap :: _, [] => none
  | fuel + 1, RTok.cap :: rest, c :: cs =>
    if c.isDigit then
      match cs with
      | c2 :: cs2 =>
        if c2.isDigit then
          match matchToksAux fuel rest cs2 with
          | some caps => some ((digitVal c * 10 + digitVal c2) :: caps)
          | none => (matchToksAux fuel rest (c2 :: cs2)).map (fun caps => digitVal c :: caps)
        else (matchToksAux fuel rest (c2 :: cs2)).map (fun caps => digitVal c :: caps)
      | [] => (matchToksAux fuel rest []).map (fun caps => digitVal c :: caps)
    else none
  | fuel + 1, RTok.ws :: rest, [] => matchToksAux fuel rest []
  | fuel + 1, RTok.ws :: rest, c :: cs =>
    if isJsSpace c then
      match matchToksAux fuel (RTok.ws :: rest) cs with
      | some r => some r
      | none => matchToksAux fuel rest (c :: cs)
    else matchToksAux fuel rest (c :: cs)
  | _ + 1, RTok.lit _ :: _, [] => none
  | fuel + 1, RTok.lit a :: rest, c :: cs => if c == a then matchToksAux fuel rest cs else none
  | fuel + 1, RTok.opt _ :: rest, [] => matchToksAux fuel rest []
  | fuel + 1, RTok.opt a :: rest, c :: cs =>
    if c == a then
      match matchToksAux fuel rest cs with
      | some r => some r
      | none => matchToksAux fuel rest (c :: cs)
    else matchToksAux fuel rest (c :: cs)
  | _ + 1, RTok.cls _ :: _, [] => none
  | fuel + 1, RTok.cls set :: rest, c :: cs =>
    if set.contains c then matchToksAux fuel rest cs else none

def matchToks (toks : List RTok) (cs : List Char) : Option (List Nat) :=
  matchToksAux (toks.length + cs.length + 1) toks cs

/-- Leftmost match of a token sequence anywhere in the input. -/
def searchToks (toks : List RTok) : List Char → Option (List Nat)
  | [] => matchToks toks []
  | c :: cs =>
    match matchToks toks (c :: cs) with
    | some r => some r
    | none => searchToks toks cs

/-! ## Korean date-range inference
(`inferExecutionWindowFromText`, `ThemeSwitcher.tsx` lines 2720-2785).

Patterns 3-5 of the source's pattern list are redundant: the loop body
assigns captures (and breaks) only for patterns 0-2, so a match of a
later pattern never produces an output; they are therefore omitted. -/

/-- Pattern 0: `(\d{1,2})\s*월\s*(\d{1,2})\s*일?\s*[~-]\s*(\d{1,2})\s*일?`. -/
def rangePattern0 : List RTok :=
  [RTok.cap, RTok.ws, RTok.lit '월', RTok.ws, RTok.cap, RTok.ws, RTok.opt '일',
   RTok.ws, RTok.cls ['~', '-'], RTok.ws, RTok.cap, RTok.ws, RTok.opt '일']

/-- Pattern 1: `(\d{1,2})\s*월\s*(\d{1,2})\s*일?\s*[~-]\s*(\d{1,2})\s*월\s*(\d{1,2})\s*일?`. -/
def rangePattern1 : List RTok :=
  [RTok.cap, RTok.ws, RTok.lit '월', RTok.ws, RTok.cap, RTok.ws, RTok.opt '일',
   RTok.ws, RTok.cls ['~', '-'], RTok.ws, RTok.cap, RTok.ws, RTok.lit '월',
   RTok.ws, RTok.cap, RTok.ws, RTok.opt '일']

/-- Pattern 2: `(\d{1,2})\s*[\/\.]\s*(\d{1,2})\s*[~-]\s*(\d{1,2})\s*[\/\.]\s*(\d{1,2})`. -/
def rangePattern2 : List RTok :=
  [RTok.cap, RTok.ws, RTok.cls ['/', '.'], RTok.ws, RTok.cap, RTok.ws,
   RTok.cls ['~', '-'], RTok.ws, RTok.cap, RTok.ws, RTok.cls ['/', '.'], RTok.ws, RTok.cap]

/-- The pattern loop: first matching pattern (among those that assign)
yields `(startMonth, startDay, endMonth, endDay)`; pattern 0 shares the
start month with the end. -/
def extractRangeNums (text : String) : Option (Nat × Nat × Nat × Nat) :=
  match searchToks rangePattern0 text.data with
  | some [sm, sd, ed] => some (sm, sd, sm, ed)
  | _ =>
    match searchToks rangePattern1 text.data with
    | some [sm, sd, em, ed] => some (sm, sd, em, ed)
    | _ =>
      match searchToks rangePattern2 text.data with
      | some [sm, sd, em, ed] => some (sm, sd, em, ed)
      | _ => none

structure ExecutionWindow where
  start : String
  /-- source field name: `end`. -/
  stop : String
deriving DecidableEq, Repr

/-- `inferExecutionWindowFromText`: extract a month/day range, validate,
infer years relative to `baseDate`, and round-trip check both endpoints.
(`Number.isFinite` is always true for extracted digits and
`Number.isNaN(date.getTime())` is always false for arithmetic dates, so
those source checks are omitted.) -/
def inferExecutionWindowFromText (text : String) (baseDate : JSDate) : Option ExecutionWindow :=
  match extractRangeNums text with
  | none => none
  | some (startMonth, startDay, endMonth, endDay) =>
    -- `if (!startMonth || !startDay || !endMonth || !endDay) return null;` (0 is falsy)
    if startMonth == 0 || startDay == 0 || endMonth == 0 || endDay == 0 then none
    else if startMonth < 1 || startMonth > 12 || endMonth < 1 || endMonth > 12 then none
    else if startDay < 1 || startDay > 31 || endDay < 1 || endDay > 31 then none
    else
      let todayStart := mkJSDate baseDate.getFullYear baseDate.getMonth baseDate.getDate
      let startYear0 := baseDate.getFullYear
      let candidateStart := mkJSDate startYear0 ((startMonth : Int) - 1) (startDay : Int)
      let startYear := if candidateStart.days < todayStart.days then startYear0 + 1 else startYear0
      let crossesYear := endMonth < startMonth || (endMonth == startMonth && endDay < startDay)
      let endYear := if crossesYear then startYear + 1 else startYear
      let startDate := mkJSDate startYear ((startMonth : Int) - 1) (startDay : Int)
      let endDate := mkJSDate endYear ((endMonth : Int) - 1) (endDay : Int)
      if formatDateKey startDate ≠
          padStartZero 4 (intDecStr startYear) ++ "-" ++ padStartZero 2 (natDecStr startMonth)
            ++ "-" ++ padStartZero 2 (natDecStr startDay) then none
      else if formatDateKey endDate ≠
          padStartZero 4 (intDecStr endYear) ++ "-" ++ padStartZero 2 (natDecStr endMonth)
            ++ "-" ++ padStartZero 2 (natDecStr endDay) then none
      else some ⟨formatDateKey startDate, formatDateKey endDate⟩

/-! ## Keyword classification (`isPreWorkTitle`/`isPostWorkTitle`,
lines 2787-2795) -/

def isPreWorkTitle (title : String) : Bool :=
  ["품의", "원인행위", "계약", "업체", "발주", "입찰", "견적", "선정", "결재", "상신"].any
    (fun k => strIncludes title k)

def isPostWorkTitle (title : String) : Bool :=
  ["검수", "준공", "정산", "지출", "대금", "세금계산서", "대금지급", "지출결의"].any
    (fun k => strIncludes title k)

/-! ## Event categories (`src/types.ts`) -/

def EVENT_CATEGORIES : List String :=
  ["예산", "급여", "지출", "계약", "시설", "민원", "회의", "학운위", "공유재산", "세입", "물품", "인사", "기타"]

def DEFAULT_EVENT_CATEGORY : String := "기타"

/-- `asEventCategory`: a category string inside the fixed enumeration, else
`null` (non-strings are modelled as `none` inputs). -/
def asEventCategory (value : Option String) : Option String :=
  match value with
  | some s => if EVENT_CATEGORIES.contains s then some s else none
  | none => none

/-! ## Proposal items and the execution-window clamp
(`handleSendMessage`, lines 3299-3323) -/

structure ScheduleProposalItem where
  date : String
  title : String
  category : String
deriving DecidableEq, Repr

/-- The per-item re-dating of the window block (lines 3306-3323):
pre-work dates are upper-clamped to `max(start − 1 day, today)`,
post-work dates lower-clamped to `max(end, today)`, unclassified dates
clamped into `[start, end]`; a final `max(·, today)` applies to all. -/
def clampItemToWindow (todayKey executionStartKey executionEndKey : String)
    (item : ScheduleProposalItem) : ScheduleProposalItem :=
  let preWorkLatestKey := clampMinDateKey (shiftDateKeyByDays executionStartKey (-1)) todayKey
  let postWorkEarliestKey := clampMinDateKey executionEndKey todayKey
  let preWork := isPreWorkTitle item.title
  let postWork := isPostWorkTitle item.title
  let date1 :=
    if preWork then clampMaxDateKey item.date preWorkLatestKey
    else if postWork then clampMinDateKey item.date postWorkEarliestKey
    else
      let d := if compareDateKey item.date executionStartKey < 0 then executionStartKey else item.date
      if compareDateKey d executionEndKey > 0 then executionEndKey else d
  { item with date := clampMinDateKey date1 todayKey }

/-! ## Proposal validation, dedup and cap
(`handleSendMessage`, lines 3257-3301) -/

/-- A member of the model's `events` array, after `JSON.parse`: dynamic
field reads are `Option`s (non-string values behave as absent under the
source's `typeof` checks). -/
structure ParsedEventJson where
  date : Option String
  task : Option String
  title : Option String
  category : Option String
deriving DecidableEq, Repr

/-- The parsed top-level payload (`events` is `none` when missing or not
an array). -/
structure ParsedPayload where
  project : Option String
  deadline : Option String
  events : Option (List ParsedEventJson)
deriving DecidableEq, Repr

/-- Lines 3257-3260: `project` falls back to the trimmed 30-character
prefix of the user's raw text. -/
def resolveProject (parsedProject : Option String) (userMessageText : String) : String :=
  match parsedProject with
  | some p => if jsTrim p ≠ "" then jsTrim p else jsTrim (strTake userMessageText 30)
  | none => jsTrim (strTake userMessageText 30)

/-- Lines 3262-3263: `deadline` nulled unless a valid date key. -/
def resolveDeadline (parsedDeadline : Option String) : Option String :=
  match parsedDeadline with
  | some d => if isValidDateKey d then some d else none
  | none => none

/-- Lines 3267-3286: validation/coercion of one event item. -/
def mapCandidateEvent (project : String) (ev : ParsedEventJson) : Option ScheduleProposalItem :=
  let taskCandidate :=
    match ev.task with
    | some t => jsTrim t
    | none => match ev.title with | some t => jsTrim t | none => ""
  if taskCandidate = "" then none
  else
    let projectPrefix := project ++ ":"
    let normalizedTask :=
      if leadsWith projectPrefix.data taskCandidate.data then
        jsTrim ⟨taskCandidate.data.drop projectPrefix.data.length⟩
      else taskCandidate
    let title := if project ≠ "" then project ++ ": " ++ normalizedTask else normalizedTask
    let category := (asEventCategory ev.category).getD DEFAULT_EVENT_CATEGORY
    match ev.date with
    | none => none
    | some date =>
      if !isValidDateKey date then none
      else if title = "" then none
      else some ⟨date, title, category⟩

def candidateEventsOf (project : String) (p : ParsedPayload) : List ScheduleProposalItem :=
  match p.events with
  | some evs => evs.filterMap (mapCandidateEvent project)
  | none => []

def itemKey (item : ScheduleProposalItem) : String := item.date ++ "::" ++ item.title

/-- Lines 3290-3297: dedup by `(date, title)` key, first occurrence wins. -/
def dedupeByKey : List ScheduleProposalItem → List String → List ScheduleProposalItem
  | [], _ => []
  | item :: rest, seen =>
    if seen.contains (itemKey item) then dedupeByKey rest seen
    else item :: dedupeByKey rest (itemKey item :: seen)

/-- Lines 3290-3301: dedup, cap at 4, clamp each date to ≥ today. -/
def initialProposedItems (todayKey : String) (items : List ScheduleProposalItem) :
    List ScheduleProposalItem :=
  ((dedupeByKey items []).take 4).map (fun it => { it with date := clampMinDateKey it.date todayKey })

/-! ## Stored user events and the proposal-apply commit
(`applyScheduleProposal`, `ThemeSwitcher.tsx` lines 3066-3124) -/

structure StoredUserEvent where
  id : String
  date : String
  title : String
  category : String
  source : String
deriving DecidableEq, Repr

/-- Lines 2804-2822: restore/normalise one stored entry (invalid entries
are dropped, category and source fall back to defaults). -/
def restoreStoredEvent (ev : StoredUserEvent) : Option StoredUserEvent :=
  if jsTrim ev.title = "" then none
  else if !isValidDateKey ev.date then none
  else some { ev with
    title := jsTrim ev.title,
    category := if EVENT_CATEGORIES.contains ev.category then ev.category else DEFAULT_EVENT_CATEGORY,
    source := if ev.source = "manual" || ev.source = "ai" then ev.source else "manual" }

/-- `loadUserEventsFromStorage` (lines 2797-2826); the storage slot is
modelled as the typed JSON array it holds. -/
def loadUserEventsFromStorage (storage : List StoredUserEvent) : List StoredUserEvent :=
  storage.filterMap restoreStoredEvent

structure ScheduleProposal where
  project : String
  deadline : Option String
  items : List ScheduleProposalItem
  selected : List Bool
  applied : Bool
  appliedCount : Option Nat
  skippedCount : Option Nat
deriving DecidableEq, Repr

structure ChatMsg where
  id : String
  text : String
  scheduleProposal : Option ScheduleProposal
deriving DecidableEq, Repr

/-- The chat component's state visible to `applyScheduleProposal`:
messages, the user-events storage slot, a fresh-id counter modelling
`nanoid`, and the number of dispatched change notifications. -/
structure ChatState where
  messages : List ChatMsg
  storage : List StoredUserEvent
  nextId : Nat
  notifications : Nat
deriving DecidableEq, Repr

def eventKey (ev : StoredUserEvent) : String := ev.date ++ "::" ++ ev.title

/-- Line 3074: the selected items, in order (`selected[idx]` reads out of
range are falsy). -/
def selectedItemsOf (p : ScheduleProposal) : List ScheduleProposalItem :=
  ((p.items.enum).filter (fun pr => p.selected.getD pr.1 false)).map Prod.snd

/-- Lines 3080-3092: walk the selected items, skipping keys already in
the set and adding each new key to it; threads the fresh-id counter. -/
def collectAdded : List ScheduleProposalItem → List String → Nat → List StoredUserEvent × Nat
  | [], _, n => ([], n)
  | item :: rest, keys, n =>
    let key := item.date ++ "::" ++ item.title
    if keys.contains key then collectAdded rest keys n
    else
      let res := collectAdded rest (key :: keys) (n + 1)
      (⟨"user-" ++ natDecStr n, item.date, item.title, item.category, "ai"⟩ :: res.1, res.2)

/-- Lines 3098-3108: the summary appended to the message text. -/
def applySummaryLines (proposal : ScheduleProposal) (added : List StoredUserEvent) :
    List String :=
  let l0 := ["적용 완료: **" ++ natDecStr added.length ++ "개** 일정이 캘린더에 추가됐어요."]
  let l1 := if proposal.project ≠ "" then l0 ++ ["- 프로젝트: **" ++ proposal.project ++ "**"] else l0
  let l2 := match proposal.deadline with
    | some d => if d ≠ "" then l1 ++ ["- 마감: **" ++ d ++ "**"] else l1
    | none => l1
  if added.length > 0 then
    l2 ++ [""] ++ added.map (fun ev => "- " ++ ev.date ++ " " ++ ev.title)
  else
    l2 ++ ["", "선택한 일정이 이미 등록되어 있어 새로 추가된 일정이 없어요."]

/-- `applyScheduleProposal` (lines 3066-3124). The storage write is the
swallowing `saveUserEventsToStorage`; the success path is modelled (on a
failed write the storage slot would simply keep its old value). -/
def applyScheduleProposal (messageId : String) (s : ChatState) : ChatState :=
  match s.messages.find? (fun m => m.id == messageId) with
  | none => s
  | some target =>
    match target.scheduleProposal with
    | none => s
    | some proposal =>
      if proposal.applied then s
      else
        let selectedItems := selectedItemsOf proposal
        if selectedItems.length = 0 then s
        else
          let existing := loadUserEventsFromStorage s.storage
          let existingKeys := existing.map eventKey
          let res := collectAdded selectedItems existingKeys s.nextId
          let added := res.1
          let nextEvents := added ++ existing
          let summary := applySummaryLines proposal added
          { messages := s.messages.map (fun msg =>
              if msg.id == messageId then
                { msg with
                  text := jsTrim (msg.text ++ "\n\n" ++ String.intercalate "\n" summary),
                  scheduleProposal := some { proposal with
                    applied := true,
                    appliedCount := some added.length,
                    skippedCount := some (selectedItems.length - added.length) } }
              else msg),
            storage := nextEvents,
            nextId := res.2,
            notifications := s.notifications + 1 }

/-! ## Builtin-event overrides
(`moveEventToDate` lines 765-814, `handleSaveDraft` lines 926-961) -/

structure BuiltinEventOverride where
  date : Option String
  title : Option String
  category : Option String
deriving DecidableEq, Repr

/-- JS truthiness of an optional string field. -/
def optTruthy : Option String → Bool
  | none => false
  | some s => s ≠ ""

/-- `!e.date && !e.title && !e.category`: the entry holds no truthy field. -/
def overrideIsEmpty (e : BuiltinEventOverride) : Bool :=
  !(optTruthy e.date) && !(optTruthy e.title) && !(optTruthy e.category)

/-- Overrides object: association list in insertion order with unique
keys (a parsed JS object). -/
abbrev OverridesMap := List (String × BuiltinEventOverride)

/-- JS `obj[k] = v`: replace in place, or append for a new key. -/
def setEntry : OverridesMap → String → BuiltinEventOverride → OverridesMap
  | [], k, v => [(k, v)]
  | (k0, v0) :: rest, k, v =>
    if k0 == k then (k0, v) :: rest else (k0, v0) :: setEntry rest k v

/-- JS `delete obj[k]`. -/
def delEntry : OverridesMap → String → OverridesMap
  | [], _ => []
  | (k0, v0) :: rest, k => if k0 == k then rest else (k0, v0) :: delEntry rest k

/-- The base builtin event a draft or move is measured against. -/
structure BuiltinBaseEvent where
  date : String
  title : String
  category : String
deriving DecidableEq, Repr

/-- `moveEventToDate`, builtin branch (lines 782-808): the override-map
update when a builtin event is dragged to `nextDateKey`. -/
def moveBuiltinOverride (overrides : OverridesMap) (eventId : String)
    (baseDate nextDateKey : String) : OverridesMap :=
  if baseDate == nextDateKey then
    match overrides.lookup eventId with
    | none => overrides
    | some existing =>
      let nextEntry := { existing with date := none }
      if overrideIsEmpty nextEntry then delEntry overrides eventId
      else setEntry overrides eventId nextEntry
  else
    let existing := (overrides.lookup eventId).getD ⟨none, none, none⟩
    setEntry overrides eventId { existing with date := some nextDateKey }

/-- `handleSaveDraft`, builtin branch (lines 926-958): `dateKey` is the
validated draft date, `cleanedTitle` the trimmed (non-empty) draft title,
`draftCategory` the raw draft category value. -/
def saveBuiltinDraft (overrides : OverridesMap) (draftId : String) (base : BuiltinBaseEvent)
    (dateKey cleanedTitle draftCategory : String) : OverridesMap :=
  let existing := (overrides.lookup draftId).getD ⟨none, none, none⟩
  let e1 := if dateKey == base.date then { existing with date := none }
            else { existing with date := some dateKey }
  let e2 := if cleanedTitle == base.title then { e1 with title := none }
            else { e1 with title := some cleanedTitle }
  let e3 := if EVENT_CATEGORIES.contains draftCategory then { e2 with category := some draftCategory }
            else { e2 with category := none }
  if overrideIsEmpty e3 then delEntry overrides draftId
  else setEntry overrides draftId e3

/-! ## Storage-write failure semantics
(`saveUserEventsToStorage` lines 175-182/2828-2835,
`saveEventFiltersToStorage` lines 240-249,
`saveBuiltinEventOverridesToStorage` lines 280-286,
`saveStoredUserEvents` lines 1889-1892,
`saveStoredBuiltinOverrides` lines 1922-1925) -/

/-- Whether the underlying `localStorage.setItem` succeeds or throws
(private mode, quota exceeded). -/
inductive WriteOutcome where
  | ok
  | err (msg : String)
deriving DecidableEq, Repr

/-- `saveUserEventsToStorage`: `try { setItem } catch { /- ignore -/ }` —
returns the resulting slot content, never raises. -/
def saveUserEventsToStorage (stored : List StoredUserEvent) (events : List StoredUserEvent)
    (w : WriteOutcome) : Except String (List StoredUserEvent) :=
  match w with
  | .ok => .ok events
  | .err _ => .ok stored

/-- `saveEventFiltersToStorage`: same swallowing pattern, for the filter
preference `{categories, sources}`. -/
def saveEventFiltersToStorage (stored : Option (List String × List String))
    (filters : List String × List String) (w : WriteOutcome) :
    Except String (Option (List String × List String)) :=
  match w with
  | .ok => .ok (some filters)
  | .err _ => .ok stored

/-- `saveBuiltinEventOverridesToStorage`: same swallowing pattern, for the
override map. -/
def saveBuiltinEventOverridesToStorage (stored : OverridesMap) (overrides : OverridesMap)
    (w : WriteOutcome) : Except String OverridesMap :=
  match w with
  | .ok => .ok overrides
  | .err _ => .ok stored

/-- `saveStoredUserEvents` (lines 1889-1892): bare `setItem` followed by a
change-event dispatch, with no `try`/`catch` — a storage exception
propagates to the caller. -/
def saveStoredUserEvents (_stored : List StoredUserEvent) (events : List StoredUserEvent)
    (w : WriteOutcome) : Except String (List StoredUserEvent) :=
  match w with
  | .ok => .ok events
  | .err e => .error e

/-- `saveStoredBuiltinOverrides` (lines 1922-1925): same unguarded shape. -/
def saveStoredBuiltinOverrides (_stored : OverridesMap) (overrides : OverridesMap)
    (w : WriteOutcome) : Except String OverridesMap :=
  match w with
  | .ok => .ok overrides
  | .err e => .error e

/-! ## Backup import
(`normalizeBackupPayload` lines 2060-2141, `handleImportBackupFile`
lines 2143-2173, loaders lines 1840-1920) -/

/-- `yearFromDateKey` (lines 1840-1844). -/
def yearFromDateKey (dateKey : String) : Option Int :=
  match dateKeyShape dateKey.data with
  | some (y, _, _) => some (y : Int)
  | none => none

/-- `yearFromBuiltinEventId` (lines 1846-1851): the id must start with
`event-`, four digits, `-`. -/
def yearFromBuiltinEventId (eventId : String) : Option Int :=
  match eventId.data with
  | 'e' :: 'v' :: 'e' :: 'n' :: 't' :: '-' :: a :: b :: c :: d :: '-' :: _ =>
    if a.isDigit && b.isDigit && c.isDigit && d.isDigit then
      some ((((digitVal a * 10 + digitVal b) * 10 + digitVal c) * 10 + digitVal d : Nat) : Int)
    else none
  | _ => none

/-- `(override.date && yearFromDateKey(override.date)) ?? yearFromBuiltinEventId(id)`
(lines 2011, 2125, 2158). -/
def effectiveOverrideYear (id : String) (o : BuiltinEventOverride) : Option Int :=
  match o.date with
  | some d =>
    if d ≠ "" then
      match yearFromDateKey d with
      | some y => some y
      | none => yearFromBuiltinEventId id
    else yearFromBuiltinEventId id
  | none => yearFromBuiltinEventId id

/-- `loadStoredUserEvents` entry restore (lines 1861-1881): non-empty id,
date-key-shaped date, non-blank title; category/source coerced. -/
def restoreModalStoredEvent (ev : StoredUserEvent) : Option StoredUserEvent :=
  if ev.id = "" then none
  else if !(isDateKeyLike ev.date) then none
  else if jsTrim ev.title = "" then none
  else some { ev with
    title := jsTrim ev.title,
    category := if EVENT_CATEGORIES.contains ev.category then ev.category else DEFAULT_EVENT_CATEGORY,
    source := if ev.source = "manual" || ev.source = "ai" then ev.source else "manual" }

def loadStoredUserEvents (storage : List StoredUserEvent) : List StoredUserEvent :=
  storage.filterMap restoreModalStoredEvent

/-- `loadStoredBuiltinOverrides` entry normalisation (lines 1902-1913). -/
def normalizeStoredOverride (o : BuiltinEventOverride) : Option BuiltinEventOverride :=
  let next : BuiltinEventOverride := ⟨
    match o.date with | some d => if isDateKeyLike d then some d else none | none => none,
    match o.title with | some t => if jsTrim t ≠ "" then some (jsTrim t) else none | none => none,
    match o.category with | some c => if EVENT_CATEGORIES.contains c then some c else none | none => none⟩
  if overrideIsEmpty next then none else some next

def loadStoredBuiltinOverrides (storage : OverridesMap) : OverridesMap :=
  storage.filterMap (fun pr => (normalizeStoredOverride pr.2).map (fun v => (pr.1, v)))

/-- The `version` field of a parsed backup file. -/
inductive BackupVersionField where
  | num (n : Int)
  | missing
  /-- present but not a number (`Number(...)` would be `NaN`; non-integer
  numbers, also rejected, are not modelled). -/
  | nonNumber
deriving DecidableEq, Repr

structure RawBackupUserEvent where
  id : Option String
  date : Option String
  title : Option String
  category : Option String
  source : Option String
deriving DecidableEq, Repr

structure RawBackupOverride where
  date : Option String
  title : Option String
  category : Option String
deriving DecidableEq, Repr

/-- `candidate.builtinEventOverrides ?? candidate.builtinOverrides ??
candidate.overrides`, combined. -/
inductive RawOverridesField where
  | missing
  /-- present but not a plain object. -/
  | invalid
  | obj (entries : List (String × RawBackupOverride))
deriving DecidableEq, Repr

/-- A parsed backup file (`userEvents` covers the `?? events` fallback,
`none` meaning missing-or-not-an-array; the `year` field is `none` when
missing or not a finite number). -/
structure BackupPayloadJson where
  version : BackupVersionField
  year : Option Int
  userEvents : Option (List RawBackupUserEvent)
  builtinEventOverrides : RawOverridesField
deriving DecidableEq, Repr

structure NormalizedBackup where
  year : Int
  userEvents : List StoredUserEvent
  builtinEventOverrides : OverridesMap
deriving DecidableEq, Repr

/-- Lines 2089-2112: validate, year-filter and coerce one backup event. -/
def normalizeBackupUserEvent (normalizedYear : Int) (ev : RawBackupUserEvent) :
    Option StoredUserEvent :=
  match ev.id with
  | none => none
  | some id =>
    if id = "" then none
    else match ev.date with
    | none => none
    | some date =>
      if !(isDateKeyLike date) then none
      else match ev.title with
      | none => none
      | some title =>
        if jsTrim title = "" then none
        else if yearFromDateKey date ≠ some normalizedYear then none
        else some ⟨id, date, jsTrim title,
          (asEventCategory ev.category).getD DEFAULT_EVENT_CATEGORY,
          match ev.source with
          | some s => if s = "manual" || s = "ai" then s else "manual"
          | none => "manual"⟩

/-- Lines 2116-2131: normalise, year-filter and prune one backup override. -/
def normalizeBackupOverride (normalizedYear : Int) (id : String) (o : RawBackupOverride) :
    Option BuiltinEventOverride :=
  let next : BuiltinEventOverride := ⟨
    match o.date with | some d => if isDateKeyLike d then some d else none | none => none,
    match o.title with | some t => if jsTrim t ≠ "" then some (jsTrim t) else none | none => none,
    match o.category with | some c => if EVENT_CATEGORIES.contains c then some c else none | none => none⟩
  if effectiveOverrideYear id next ≠ some normalizedYear then none
  else if overrideIsEmpty next then none
  else some next

/-- `normalizeBackupPayload` (lines 2060-2141): `BACKUP_FILE_VERSION = 1`;
a missing version is treated as 0 (legacy-compatible), a non-numeric one
as `NaN` (rejected). Throws are modelled as `Except.error` with the
source's message. -/
def normalizeBackupPayload (p : BackupPayloadJson) : Except String NormalizedBackup :=
  let versionOk := match p.version with
    | .num n => n == 0 || n == 1
    | .missing => true
    | .nonNumber => false
  if !versionOk then .error "지원하지 않는 백업 파일 버전입니다."
  else match p.year with
  | none => .error "백업 파일 형식이 올바르지 않습니다. (year)"
  | some normalizedYear =>
    match p.userEvents with
    | none => .error "백업 파일 형식이 올바르지 않습니다. (userEvents)"
    | some userEventsRaw =>
      match p.builtinEventOverrides with
      | .invalid => .error "백업 파일 형식이 올바르지 않습니다. (builtinEventOverrides)"
      | ovField =>
        let entries := match ovField with | .obj es => es | _ => []
        let normalizedUserEvents := userEventsRaw.filterMap (normalizeBackupUserEvent normalizedYear)
        let normalizedOverrides := entries.foldl
          (fun acc pr =>
            match normalizeBackupOverride normalizedYear pr.1 pr.2 with
            | some next => setEntry acc pr.1 next
            | none => acc) []
        .ok ⟨normalizedYear, normalizedUserEvents, normalizedOverrides⟩

/-- The two persisted slots the import touches. -/
structure PersistedStores where
  userEvents : List StoredUserEvent
  overrides : OverridesMap
deriving DecidableEq, Repr

/-- `handleImportBackupFile` (lines 2143-2173), success path of the two
storage writes; a normalisation error is caught and leaves storage
untouched. -/
def handleImportBackupFile (p : BackupPayloadJson) (stores : PersistedStores) : PersistedStores :=
  match normalizeBackupPayload p with
  | .error _ => stores
  | .ok backup =>
    let existingUserEvents := loadStoredUserEvents stores.userEvents
    let remainingUserEvents := existingUserEvents.filter
      (fun ev => yearFromDateKey ev.date ≠ some backup.year)
    let newUserEvents := backup.userEvents ++ remainingUserEvents
    let existingOverrides := loadStoredBuiltinOverrides stores.overrides
    let remainingOverrides := existingOverrides.filter
      (fun pr => effectiveOverrideYear pr.1 pr.2 ≠ some backup.year)
    let newOverrides := backup.builtinEventOverrides.foldl
      (fun acc pr => setEntry acc pr.1 pr.2) remainingOverrides
    ⟨newUserEvents, newOverrides⟩

/-! ## OpenRouter transport (`src/unnamed/part_000`) -/

/-- A response body, as far as the code inspects it. -/
inductive RawBody where
  /-- `JSON.parse(raw)` throws, with this exception message. -/
  | invalid (parseErr : String)
  /-- a parsed object: `error.message` and `choices[0].message.content`
  (`none` when absent or not a string). -/
  | obj (errorMessage : Option String) (content : Option String)
deriving DecidableEq, Repr

/-- One `fetch` outcome for a candidate model. -/
inductive FetchRes where
  /-- `fetch` or `res.text()` rejects with this error message. -/
  | netErr (msg : String)
  | resp (ok : Bool) (status : Nat) (body : RawBody)
deriving DecidableEq, Repr

def DEFAULT_FREE_MODELS : List String :=
  ["mistralai/mistral-7b-instruct:free",
   "meta-llama/llama-3.2-3b-instruct:free",
   "google/gemma-3-4b-it:free",
   "openai/gpt-oss-20b:free"]

/-- `` `OpenRouter 요청 실패 (${res.status}) - model=${candidateModel}` ``. -/
def genericFailureMessage (status : Nat) (candidateModel : String) : String :=
  "OpenRouter 요청 실패 (" ++ natDecStr status ++ ") - model=" ++ candidateModel

/-- One loop iteration of `openRouterChatCompletion` (lines 43-79) for a
candidate model: the non-OK branch is the source's
`try { ...; throw new Error(message || generic) } catch { throw new Error(generic) }`
— every path inside that `try` throws, and the `catch` discards the
thrown error and throws the generic status message. -/
def attemptModel (fetchRes : String → FetchRes) (candidateModel : String) :
    Except String String :=
  match fetchRes candidateModel with
  | .netErr m => .error m
  | .resp ok status body =>
    if !ok then
      let inner : Except String String :=
        match body with
        | .invalid parseErr => .error parseErr
        | .obj errorMessage _ =>
          .error (match errorMessage with
            | some m => if m ≠ "" then m else genericFailureMessage status candidateModel
            | none => genericFailureMessage status candidateModel)
      match inner with
      | .error _ => .error (genericFailureMessage status candidateModel)
      | .ok v => .ok v
    else
      match body with
      | .invalid parseErr => .error parseErr
      | .obj _ content =>
        match content with
        | some c => if c ≠ "" then .ok c else .error "OpenRouter 응답을 해석하지 못했습니다."
        | none => .error "OpenRouter 응답을 해석하지 못했습니다."

/-- The `for`/`lastError` loop: first success wins; when all candidates
fail the last error is rethrown. -/
def tryModelsLoop (fetchRes : String → FetchRes) :
    List String → Option String → Except String String
  | [], lastError => .error (lastError.getD "OpenRouter 요청 실패")
  | m :: rest, lastError =>
    let _ := lastError
    match attemptModel fetchRes m with
    | .ok content => .ok content
    | .error e => tryModelsLoop fetchRes rest (some e)

/-- `model ? [model, ...DEFAULT_FREE_MODELS] : [...DEFAULT_FREE_MODELS]`. -/
def modelsToTryOf (model : Option String) : List String :=
  match model with
  | some m => m :: DEFAULT_FREE_MODELS
  | none => DEFAULT_FREE_MODELS

/-- `openRouterChatCompletion`: candidate order is the caller's model (if
any) followed by `DEFAULT_FREE_MODELS`. -/
def openRouterChatCompletion (fetchRes : String → FetchRes) (model : Option String) :
    Except String String :=
  tryModelsLoop fetchRes (modelsToTryOf model) none

/-! ## Specification-side helpers used by theorem statements -/

/-- The four-digit-padded `YYYY-MM-DD` key built at lines 2781-2782 and in
the spec's examples. -/
def dateKey4 (y : Int) (m d : Nat) : String :=
  padStartZero 4 (intDecStr y) ++ "-" ++ padStartZero 2 (natDecStr m) ++ "-" ++
    padStartZero 2 (natDecStr d)

/-- Whether an override differs from its base builtin event in at least
one present field (the spec's invariant on persisted overrides). -/
def overrideDiffersInSomeField (base : BuiltinBaseEvent) (o : BuiltinEventOverride) : Bool :=
  (match o.date with | some d => d ≠ base.date | none => false) ||
  (match o.title with | some t => t ≠ base.title | none => false) ||
  (match o.category with | some c => c ≠ base.category | none => false)

/-! ### Concrete scenarios used by witnesses and counterexamples -/

/-- A transport script whose third fallback model is the only one that
responds successfully. -/
def fetchScriptC7 : String → FetchRes := fun m =>
  if m = "google/gemma-3-4b-it:free" then FetchRes.resp true 200 (RawBody.obj none (some "hello"))
  else FetchRes.netErr ("connection refused: " ++ m)

/-- A transport that always answers 401 with a structured error body. -/
def fetchScriptC6 : String → FetchRes := fun _ =>
  FetchRes.resp false 401 (RawBody.obj (some "Invalid API key") none)

def proposalC1 : ScheduleProposal :=
  ⟨"현수막", none,
   [⟨"2025-12-19", "현수막: 품의 상신", "기타"⟩,
    ⟨"2025-12-19", "현수막: 품의 상신", "기타"⟩,
    ⟨"2025-12-24", "현수막: 설치 확인", "기타"⟩],
   [true, true, true], false, none, none⟩

def chatMsgC1 : ChatMsg := ⟨"m1", "제안", some proposalC1⟩

def chatStateC1 : ChatState :=
  ⟨[chatMsgC1], [⟨"user-x", "2025-12-24", "현수막: 설치 확인", "기타", "manual"⟩], 0, 0⟩

def proposalC10 : ScheduleProposal :=
  ⟨"현수막", none, [⟨"2025-12-19", "현수막: 품의", "기타"⟩], [false], false, none, none⟩

def chatMsgC10 : ChatMsg := ⟨"m1", "제안", some proposalC10⟩

def chatStateC10 : ChatState := ⟨[chatMsgC10], [], 0, 0⟩

end SmartCal

namespace SmartCal

/-! # Theorems -/

/-! ## OpenRouter transport: C6 and C7 -/

theorem tryModelsLoop_ok_iff (fetchRes : String → FetchRes) (ms : List String)
    (last : Option String) (c : String) :
    tryModelsLoop fetchRes ms last = .ok c ↔
      ∃ pre m post, ms = pre ++ m :: post ∧
        (∀ x ∈ pre, ∃ e, attemptModel fetchRes x = .error e) ∧
        attemptModel fetchRes m = .ok c := by
  induction ms generalizing last with
  | nil =>
    simp only [tryModelsLoop]
    constructor
    · intro h; exact absurd h (by simp)
    · rintro ⟨pre, m, post, hdec, -, -⟩
      exact absurd hdec (by simp)
  | cons hd tl ih =>
    simp only [tryModelsLoop]
    cases hatt : attemptModel fetchRes hd with
    | ok v =>
      simp only []
      constructor
      · intro h
        have hv : v = c := by cases h; rfl
        exact ⟨[], hd, tl, rfl, by simp, by rw [hatt, hv]⟩
      · rintro ⟨pre, m, post, hdec, hpre, hm⟩
        cases pre with
        | nil =>
          have hhd : hd = m := by simpa using congrArg (fun l => l.headI) hdec
          rw [hhd, hm] at hatt
          cases hatt; rfl
        | cons p ps =>
          have hphd : hd = p := by simpa using congrArg (fun l => l.headI) hdec
          obtain ⟨e, he⟩ := hpre p (by simp)
          rw [← hphd, hatt] at he
          simp at he
    | error e =>
      simp only []
      rw [ih (some e)]
      constructor
      · rintro ⟨pre, m, post, hdec, hpre, hm⟩
        refine ⟨hd :: pre, m, post, by simp [hdec], ?_, hm⟩
        intro x hx
        rcases List.mem_cons.mp hx with hx | hx
        · exact ⟨e, by rw [hx, hatt]⟩
        · exact hpre x hx
      · rintro ⟨pre, m, post, hdec, hpre, hm⟩
        cases pre with
        | nil =>
          have hhd : hd = m := by simpa using congrArg (fun l => l.headI) hdec
          rw [hhd, hm] at hatt
          cases hatt
        | cons p ps =>
          have htl : tl = ps ++ m :: post := by simpa using congrArg (fun l => l.tail) hdec
          exact ⟨ps, m, post, htl, fun x hx => hpre x (by simp [hx]), hm⟩

theorem tryModelsLoop_error_iff (fetchRes : String → FetchRes) (ms : List String)
    (last : Option String) :
    (∃ e, tryModelsLoop fetchRes ms last = .error e) ↔
      ∀ x ∈ ms, ∃ e, attemptModel fetchRes x = .error e := by
  induction ms generalizing last with
  | nil => simp [tryModelsLoop]
  | cons hd tl ih =>
    simp only [tryModelsLoop]
    cases hatt : attemptModel fetchRes hd with
    | ok v =>
      simp only []
      constructor
      · rintro ⟨e, he⟩; cases he
      · intro h
        obtain ⟨e, he⟩ := h hd (by simp)
        rw [hatt] at he; cases he
    | error e =>
      simp only []
      rw [ih (some e)]
      constructor
      · intro h x hx
        rcases List.mem_cons.mp hx with hx | hx
        · exact ⟨e, by rw [hx, hatt]⟩
        · exact h x hx
      · intro h x hx
        exact h x (by simp [hx])

/-- C6: the claim says that for a non-OK response carrying a non-empty
structured `error.message`, the surfaced error for that attempt is the
structured message. In the source the `throw new Error(message || ...)`
sits inside the same `try` whose bare `catch` rethrows the generic
status text, so the structured message is always discarded: every non-OK
attempt fails with `OpenRouter 요청 실패 (status) - model=...`, and a
full call against a transport that always answers 401 with
`{error: {message: "Invalid API key"}}` surfaces the generic message of
the last fallback model instead of "Invalid API key". -/
theorem C6_structured_message_discarded :
    (∀ (fetchRes : String → FetchRes) (model : String) (status : Nat)
        (emsg : Option String) (content : Option String),
        fetchRes model = .resp false status (.obj emsg content) →
        attemptModel fetchRes model = .error (genericFailureMessage status model)) ∧
    openRouterChatCompletion fetchScriptC6 none
      = .error (genericFailureMessage 401 "openai/gpt-oss-20b:free") ∧
    genericFailureMessage 401 "openai/gpt-oss-20b:free" ≠ "Invalid API key" := by
  refine ⟨?_, by rfl, by decide⟩
  intro f m st em ct h
  simp only [attemptModel, h]
  cases em <;> simp

theorem C6_structured_message_discarded_witness :
    attemptModel fetchScriptC6 "mistralai/mistral-7b-instruct:free"
      = .error (genericFailureMessage 401 "mistralai/mistral-7b-instruct:free") :=
  C6_structured_message_discarded.1 fetchScriptC6 "mistralai/mistral-7b-instruct:free"
    401 (some "Invalid API key") none rfl

/-- C7: candidates are tried strictly in order — the caller's model (when
given) followed by the literal free-model fallback list; the call
returns the content of the first candidate whose attempt succeeds, and
fails only when every candidate's attempt has failed. -/
theorem C7_model_fallback_order (fetchRes : String → FetchRes) (model : Option String) :
    (∀ m0, modelsToTryOf (some m0) =
      m0 :: ["mistralai/mistral-7b-instruct:free", "meta-llama/llama-3.2-3b-instruct:free",
             "google/gemma-3-4b-it:free", "openai/gpt-oss-20b:free"]) ∧
    (modelsToTryOf none =
      ["mistralai/mistral-7b-instruct:free", "meta-llama/llama-3.2-3b-instruct:free",
       "google/gemma-3-4b-it:free", "openai/gpt-oss-20b:free"]) ∧
    (∀ c, openRouterChatCompletion fetchRes model = .ok c ↔
      ∃ pre m post, modelsToTryOf model = pre ++ m :: post ∧
        (∀ x ∈ pre, ∃ e, attemptModel fetchRes x = .error e) ∧
        attemptModel fetchRes m = .ok c) ∧
    ((∃ e, openRouterChatCompletion fetchRes model = .error e) ↔
      ∀ x ∈ modelsToTryOf model, ∃ e, attemptModel fetchRes x = .error e) :=
  ⟨fun _ => rfl, rfl,
   fun c => tryModelsLoop_ok_iff fetchRes (modelsToTryOf model) none c,
   tryModelsLoop_error_iff fetchRes (modelsToTryOf model) none⟩

theorem C7_model_fallback_order_witness :
    ∃ pre m post, modelsToTryOf (some "my/model") = pre ++ m :: post ∧
      (∀ x ∈ pre, ∃ e, attemptModel fetchScriptC7 x = .error e) ∧
      attemptModel fetchScriptC7 m = .ok "hello" :=
  ((C7_model_fallback_order fetchScriptC7 (some "my/model")).2.2.1 "hello").mp (by rfl)

/-! ## Storage-write failure semantics: C8 -/

/-- C8 counterexample: `saveStoredUserEvents` — a storage write of the
user event list performed by the persistence helpers — propagates a
failing underlying write instead of swallowing it. -/
theorem C8_counterexample_unguarded_write_raises :
    saveStoredUserEvents [] [⟨"user-1", "2025-01-01", "결재", "기타", "manual"⟩]
      (.err "QuotaExceededError") = .error "QuotaExceededError" := rfl

/-- C8 (amended): the module-level store helpers
(`saveUserEventsToStorage`, `saveEventFiltersToStorage`,
`saveBuiltinEventOverridesToStorage`) swallow storage errors and never
raise, but the notification-dispatching helpers `saveStoredUserEvents`
and `saveStoredBuiltinOverrides` are unguarded and propagate any failing
underlying write to their caller. -/
theorem C8_guarded_writes_never_raise :
    (∀ (stored events : List StoredUserEvent) (w : WriteOutcome),
        ∃ v, saveUserEventsToStorage stored events w = .ok v) ∧
    (∀ (stored : Option (List String × List String)) (filters : List String × List String)
        (w : WriteOutcome), ∃ v, saveEventFiltersToStorage stored filters w = .ok v) ∧
    (∀ (stored overrides : OverridesMap) (w : WriteOutcome),
        ∃ v, saveBuiltinEventOverridesToStorage stored overrides w = .ok v) ∧
    (∀ (stored events : List StoredUserEvent) (e : String),
        saveStoredUserEvents stored events (.err e) = .error e) ∧
    (∀ (stored overrides : OverridesMap) (e : String),
        saveStoredBuiltinOverrides stored overrides (.err e) = .error e) := by
  refine ⟨?_, ?_, ?_, ?_, ?_⟩
  · rintro stored events (_ | e)
    · exact ⟨events, rfl⟩
    · exact ⟨stored, rfl⟩
  · rintro stored filters (_ | e)
    · exact ⟨some filters, rfl⟩
    · exact ⟨stored, rfl⟩
  · rintro stored overrides (_ | e)
    · exact ⟨overrides, rfl⟩
    · exact ⟨stored, rfl⟩
  · intro stored events e; rfl
  · intro stored overrides e; rfl

/-! ## Proposal apply with nothing selected: C10 -/

/-- C10: applying a not-yet-applied proposal in which no item is selected
changes nothing: the whole state — messages (hence the proposal's
`applied`/`appliedCount`/`skippedCount`), storage, the fresh-id source
and the notification count — is untouched, so a later apply can still
commit. -/
theorem C10_apply_without_selection_is_noop (s : ChatState) (mid : String)
    (target : ChatMsg) (p : ScheduleProposal)
    (hfind : s.messages.find? (fun m => m.id == mid) = some target)
    (hprop : target.scheduleProposal = some p)
    (hnot : p.applied = false)
    (hsel : selectedItemsOf p = []) :
    applyScheduleProposal mid s = s := by
  simp [applyScheduleProposal, hfind, hprop, hnot, hsel]

theorem C10_apply_without_selection_is_noop_witness :
    applyScheduleProposal "m1" chatStateC10 = chatStateC10 :=
  C10_apply_without_selection_is_noop chatStateC10 "m1" chatMsgC10 proposalC10
    rfl rfl rfl (by decide)

/-! ## Association-list lemmas for JS-object updates -/

theorem lookup_setEntry_self (m : OverridesMap) (k : String) (v : BuiltinEventOverride) :
    (setEntry m k v).lookup k = some v := by
  induction m with
  | nil => simp [setEntry, List.lookup]
  | cons hd tl ih =>
    obtain ⟨k0, v0⟩ := hd
    simp only [setEntry]
    by_cases h : k0 = k
    · simp [h, List.lookup]
    · simp only [beq_iff_eq, h, if_false, List.lookup]
      have : (k == k0) = false := by simp [Ne.symm h]
      simp [this, ih]

theorem lookup_setEntry_ne (m : OverridesMap) (k k' : String) (v : BuiltinEventOverride)
    (h : k' ≠ k) : (setEntry m k v).lookup k' = m.lookup k' := by
  have hkk : (k' == k) = false := by simp [h]
  induction m with
  | nil => simp [setEntry, List.lookup, hkk]
  | cons hd tl ih =>
    obtain ⟨k0, v0⟩ := hd
    simp only [setEntry]
    by_cases h0 : k0 = k
    · subst h0
      simp [List.lookup, hkk]
    · have : (k0 == k) = false := by simp [h0]
      simp only [this, Bool.false_eq_true, if_false, List.lookup]
      cases hk1 : k' == k0 <;> simp [ih]

theorem lookup_eq_none_of_not_mem_keys (m : OverridesMap) (k : String)
    (h : k ∉ m.map Prod.fst) : m.lookup k = none := by
  induction m with
  | nil => rfl
  | cons hd tl ih =>
    obtain ⟨k0, v0⟩ := hd
    simp only [List.map, List.mem_cons, not_or] at h
    simp only [List.lookup]
    have : (k == k0) = false := by simp [h.1]
    simp [this, ih h.2]

theorem lookup_delEntry_self (m : OverridesMap) (k : String)
    (hnd : (m.map Prod.fst).Nodup) : (delEntry m k).lookup k = none := by
  induction m with
  | nil => rfl
  | cons hd tl ih =>
    obtain ⟨k0, v0⟩ := hd
    simp only [List.map, List.nodup_cons] at hnd
    simp only [delEntry]
    by_cases h : k0 = k
    · subst h
      simp only [beq_self_eq_true, if_true]
      exact lookup_eq_none_of_not_mem_keys tl k0 hnd.1
    · simp only [beq_iff_eq, h, if_false, List.lookup]
      have : (k == k0) = false := by simp [Ne.symm h]
      simp [this, ih hnd.2]

/-! ## Builtin-event overrides: C5 -/

/-- C5 counterexample: saving a builtin event's edit dialog with the
date, title and category all equal to the base event persists a
category-only override that differs from its base in no field — the
claimed invariant "presence of a key implies at least one field differs"
is violated (the category field is stored without comparing to the
base). -/
theorem C5_counterexample_noop_category_override_persisted :
    (saveBuiltinDraft [] "event-2025-3-2-예산편성기본계획수립-1"
        ⟨"2025-03-02", "예산편성 기본계획 수립", "예산"⟩
        "2025-03-02" "예산편성 기본계획 수립" "예산").lookup
        "event-2025-3-2-예산편성기본계획수립-1"
      = some ⟨none, none, some "예산"⟩ ∧
    overrideDiffersInSomeField ⟨"2025-03-02", "예산편성 기본계획 수립", "예산"⟩
      ⟨none, none, some "예산"⟩ = false := by
  exact ⟨rfl, rfl⟩

/-- C5 (amended): every persisted override entry holds at least one
field, and its `date` and `title` fields, when present, differ from the
base builtin event; moving a builtin event back to its own base date
deletes the override's `date` field, and an entry left with no fields is
deleted entirely; moving it to a different (valid, hence non-empty) date
stores that date. The `category` field, however, is stored by the edit
dialog whenever the draft category is valid, without comparison to the
base — so an override all of whose fields equal the base can be
persisted (see the counterexample). -/
theorem C5_override_pruning (overrides : OverridesMap) (id : String) (base : BuiltinBaseEvent)
    (hnd : (overrides.map Prod.fst).Nodup) :
    (∀ dateKey cleanedTitle draftCategory o,
      (saveBuiltinDraft overrides id base dateKey cleanedTitle draftCategory).lookup id = some o →
        overrideIsEmpty o = false ∧
        (∀ d, o.date = some d → d ≠ base.date) ∧
        (∀ t, o.title = some t → t ≠ base.title)) ∧
    ((moveBuiltinOverride overrides id base.date base.date).lookup id = none ∨
      ∃ o, (moveBuiltinOverride overrides id base.date base.date).lookup id = some o ∧
        o.date = none ∧ overrideIsEmpty o = false) ∧
    (∀ nextDateKey, nextDateKey ≠ base.date → nextDateKey ≠ "" →
      ∃ o, (moveBuiltinOverride overrides id base.date nextDateKey).lookup id = some o ∧
        o.date = some nextDateKey ∧ overrideIsEmpty o = false) := by
  refine ⟨?_, ?_, ?_⟩
  · intro dateKey cleanedTitle draftCategory o hlook
    have hflat : saveBuiltinDraft overrides id base dateKey cleanedTitle draftCategory =
        (let e3 : BuiltinEventOverride :=
          ⟨if dateKey = base.date then none else some dateKey,
           if cleanedTitle = base.title then none else some cleanedTitle,
           if EVENT_CATEGORIES.contains draftCategory then some draftCategory else none⟩
        if overrideIsEmpty e3 then delEntry overrides id else setEntry overrides id e3) := by
      by_cases h1 : dateKey = base.date <;> by_cases h2 : cleanedTitle = base.title <;>
        by_cases h3 : draftCategory ∈ EVENT_CATEGORIES <;>
        simp [saveBuiltinDraft, h1, h2, h3]
    rw [hflat] at hlook
    simp only [] at hlook
    by_cases hemp : overrideIsEmpty
        ⟨if dateKey = base.date then none else some dateKey,
         if cleanedTitle = base.title then none else some cleanedTitle,
         if EVENT_CATEGORIES.contains draftCategory then some draftCategory else none⟩ = true
    · rw [if_pos hemp, lookup_delEntry_self overrides id hnd] at hlook
      cases hlook
    · rw [if_neg hemp, lookup_setEntry_self] at hlook
      have ho : o = ⟨if dateKey = base.date then none else some dateKey,
          if cleanedTitle = base.title then none else some cleanedTitle,
          if EVENT_CATEGORIES.contains draftCategory then some draftCategory else none⟩ := by
        cases hlook; rfl
      subst ho
      refine ⟨by simpa using hemp, ?_, ?_⟩
      · intro d hd
        by_cases h1 : dateKey = base.date
        · rw [show (⟨if dateKey = base.date then none else some dateKey,
            if cleanedTitle = base.title then none else some cleanedTitle,
            if EVENT_CATEGORIES.contains draftCategory then some draftCategory else none⟩ :
              BuiltinEventOverride).date =
            (if dateKey = base.date then none else some dateKey) from rfl, if_pos h1] at hd
          cases hd
        · rw [show (⟨if dateKey = base.date then none else some dateKey,
            if cleanedTitle = base.title then none else some cleanedTitle,
            if EVENT_CATEGORIES.contains draftCategory then some draftCategory else none⟩ :
              BuiltinEventOverride).date =
            (if dateKey = base.date then none else some dateKey) from rfl, if_neg h1] at hd
          cases hd; exact h1
      · intro t ht
        by_cases h2 : cleanedTitle = base.title
        · rw [show (⟨if dateKey = base.date then none else some dateKey,
            if cleanedTitle = base.title then none else some cleanedTitle,
            if EVENT_CATEGORIES.contains draftCategory then some draftCategory else none⟩ :
              BuiltinEventOverride).title =
            (if cleanedTitle = base.title then none else some cleanedTitle) from rfl,
            if_pos h2] at ht
          cases ht
        · rw [show (⟨if dateKey = base.date then none else some dateKey,
            if cleanedTitle = base.title then none else some cleanedTitle,
            if EVENT_CATEGORIES.contains draftCategory then some draftCategory else none⟩ :
              BuiltinEventOverride).title =
            (if cleanedTitle = base.title then none else some cleanedTitle) from rfl,
            if_neg h2] at ht
          cases ht; exact h2
  · cases hl : overrides.lookup id with
    | none =>
      left
      simp only [moveBuiltinOverride, hl, beq_self_eq_true, if_true]
    | some existing =>
      by_cases hemp : overrideIsEmpty { existing with date := none } = true
      · left
        simp only [moveBuiltinOverride, hl, beq_self_eq_true, if_true]
        rw [if_pos hemp]
        exact lookup_delEntry_self overrides id hnd
      · right
        refine ⟨{ existing with date := none }, ?_, rfl, by simpa using hemp⟩
        simp only [moveBuiltinOverride, hl, beq_self_eq_true, if_true]
        rw [if_neg hemp]
        exact lookup_setEntry_self overrides id _
  · intro nextDateKey hne hnempty
    unfold moveBuiltinOverride
    have : (base.date == nextDateKey) = false := by simp [Ne.symm hne]
    rw [this]
    simp only [Bool.false_eq_true, if_false]
    refine ⟨_, lookup_setEntry_self overrides id _, rfl, ?_⟩
    simp [overrideIsEmpty, optTruthy, hnempty]

/-! ## Backup import: C9 -/

theorem keys_setEntry (m : OverridesMap) (k : String) (v : BuiltinEventOverride) :
    (setEntry m k v).map Prod.fst =
      if k ∈ m.map Prod.fst then m.map Prod.fst else m.map Prod.fst ++ [k] := by
  induction m with
  | nil => simp [setEntry]
  | cons hd tl ih =>
    obtain ⟨k0, v0⟩ := hd
    simp only [setEntry]
    by_cases h0 : k0 = k
    · subst h0
      simp
    · have : (k0 == k) = false := by simp [h0]
      simp only [this, Bool.false_eq_true, if_false, List.map_cons, ih]
      by_cases hm : k ∈ tl.map Prod.fst
      · simp [hm, Ne.symm h0]
      · simp [hm, Ne.symm h0]

theorem keys_setEntry_nodup (m : OverridesMap) (k : String) (v : BuiltinEventOverride)
    (h : (m.map Prod.fst).Nodup) : ((setEntry m k v).map Prod.fst).Nodup := by
  rw [keys_setEntry]
  by_cases hm : k ∈ m.map Prod.fst
  · simpa [hm] using h
  · simp only [hm, if_false]
    rw [List.nodup_append]
    exact ⟨h, List.nodup_singleton k, by simpa using hm⟩

theorem mem_setEntry (m : OverridesMap) (k : String) (v : BuiltinEventOverride) :
    ∀ pr ∈ setEntry m k v, pr ∈ m ∨ pr = (k, v) := by
  induction m with
  | nil => simp [setEntry]
  | cons hd tl ih =>
    obtain ⟨k0, v0⟩ := hd
    intro pr hpr
    simp only [setEntry] at hpr
    by_cases h0 : k0 = k
    · simp only [h0, beq_self_eq_true, if_true, List.mem_cons] at hpr
      rcases hpr with rfl | hpr
      · exact Or.inr rfl
      · exact Or.inl (List.mem_cons_of_mem _ hpr)
    · have : (k0 == k) = false := by simp [h0]
      simp only [this, Bool.false_eq_true, if_false, List.mem_cons] at hpr
      rcases hpr with rfl | hpr
      · exact Or.inl (List.mem_cons_self _ _)
      · rcases ih pr hpr with h | h
        · exact Or.inl (List.mem_cons_of_mem _ h)
        · exact Or.inr h

theorem lookup_foldl_setEntry_not_mem (entries : List (String × BuiltinEventOverride))
    (acc : OverridesMap) (k : String) (hk : k ∉ entries.map Prod.fst) :
    (entries.foldl (fun a pr => setEntry a pr.1 pr.2) acc).lookup k = acc.lookup k := by
  induction entries generalizing acc with
  | nil => rfl
  | cons hd tl ih =>
    simp only [List.map_cons, List.mem_cons, not_or] at hk
    simp only [List.foldl_cons]
    rw [ih _ hk.2, lookup_setEntry_ne _ _ _ _ hk.1]

theorem lookup_foldl_setEntry_mem (entries : List (String × BuiltinEventOverride))
    (acc : OverridesMap) (hnd : (entries.map Prod.fst).Nodup) :
    ∀ pr ∈ entries, (entries.foldl (fun a pr => setEntry a pr.1 pr.2) acc).lookup pr.1 =
      some pr.2 := by
  induction entries generalizing acc with
  | nil => intro pr h; cases h
  | cons hd tl ih =>
    simp only [List.map_cons, List.nodup_cons] at hnd
    intro pr hpr
    rcases List.mem_cons.mp hpr with rfl | hpr'
    · simp only [List.foldl_cons]
      rw [lookup_foldl_setEntry_not_mem tl _ pr.1 hnd.1, lookup_setEntry_self]
    · simp only [List.foldl_cons]
      exact ih _ hnd.2 pr hpr'

theorem lookup_filter_eq (m : OverridesMap) (p : String × BuiltinEventOverride → Bool)
    (k : String) (o : BuiltinEventOverride)
    (hm : m.lookup k = some o) (hp : p (k, o) = true) :
    (m.filter p).lookup k = some o := by
  induction m with
  | nil => cases hm
  | cons hd tl ih =>
    obtain ⟨k0, v0⟩ := hd
    by_cases h0 : k = k0
    · subst h0
      simp only [List.lookup, beq_self_eq_true] at hm
      have hv : v0 = o := by cases hm; rfl
      subst hv
      simp only [List.filter, hp, List.lookup, beq_self_eq_true]
    · have hne : (k == k0) = false := by simp [h0]
      simp only [List.lookup, hne] at hm
      cases hf : p (k0, v0)
      · simp only [List.filter, hf]
        exact ih hm
      · simp only [List.filter, hf, List.lookup, hne]
        exact ih hm

theorem ite_none_inv {α : Type} {c : Prop} [Decidable c] {X : Option α} {nx : α}
    (h : (if c then none else X) = some nx) : ¬c ∧ X = some nx := by
  by_cases hc : c
  · rw [if_pos hc] at h
    exact absurd h (by simp)
  · rw [if_neg hc] at h
    exact ⟨hc, h⟩

theorem normalizeBackupUserEvent_year (y : Int) (ev : RawBackupUserEvent)
    (sv : StoredUserEvent) (h : normalizeBackupUserEvent y ev = some sv) :
    yearFromDateKey sv.date = some y := by
  rcases hid : ev.id with _ | id
  · simp [normalizeBackupUserEvent, hid] at h
  · rcases hdt : ev.date with _ | date
    · simp [normalizeBackupUserEvent, hid, hdt] at h
    · rcases hti : ev.title with _ | title
      · simp [normalizeBackupUserEvent, hid, hdt, hti] at h
      · simp only [normalizeBackupUserEvent, hid, hdt, hti] at h
        obtain ⟨-, h⟩ := ite_none_inv h
        obtain ⟨-, h⟩ := ite_none_inv h
        obtain ⟨-, h⟩ := ite_none_inv h
        obtain ⟨hy, h⟩ := ite_none_inv h
        cases h
        simpa using hy

theorem normalizeBackupOverride_year (y : Int) (id : String) (ro : RawBackupOverride)
    (nx : BuiltinEventOverride) (h : normalizeBackupOverride y id ro = some nx) :
    effectiveOverrideYear id nx = some y := by
  simp only [normalizeBackupOverride] at h
  obtain ⟨hy, h⟩ := ite_none_inv h
  obtain ⟨-, h⟩ := ite_none_inv h
  cases h
  simpa using hy

/-- The override fold of `normalizeBackupPayload` produces a map with
pairwise-distinct keys all of whose entries were produced by
`normalizeBackupOverride`. -/
theorem backupOverridesFold_spec (y : Int) (entries : List (String × RawBackupOverride)) :
    ∀ acc : OverridesMap, (acc.map Prod.fst).Nodup →
    (∀ pr ∈ acc, effectiveOverrideYear pr.1 pr.2 = some y) →
    (((entries.foldl (fun a pr =>
        match normalizeBackupOverride y pr.1 pr.2 with
        | some next => setEntry a pr.1 next
        | none => a) acc).map Prod.fst).Nodup ∧
      ∀ pr ∈ entries.foldl (fun a pr =>
          match normalizeBackupOverride y pr.1 pr.2 with
          | some next => setEntry a pr.1 next
          | none => a) acc,
        effectiveOverrideYear pr.1 pr.2 = some y) := by
  induction entries with
  | nil => exact fun acc h1 h2 => ⟨h1, h2⟩
  | cons hd tl ih =>
    intro acc h1 h2
    simp only [List.foldl_cons]
    cases hno : normalizeBackupOverride y hd.1 hd.2 with
    | none => exact ih acc h1 h2
    | some next =>
      refine ih (setEntry acc hd.1 next) (keys_setEntry_nodup acc hd.1 next h1) ?_
      intro pr hpr
      rcases mem_setEntry acc hd.1 next pr hpr with h | h
      · exact h2 pr h
      · rw [h]
        exact normalizeBackupOverride_year y hd.1 hd.2 next hno

theorem ite_error_inv {c : Prop} [Decidable c] {e : String}
    {X : Except String NormalizedBackup} {b : NormalizedBackup}
    (h : (if c then Except.error e else X) = .ok b) : ¬c ∧ X = .ok b := by
  by_cases hc : c
  · rw [if_pos hc] at h
    exact absurd h (by simp)
  · rw [if_neg hc] at h
    exact ⟨hc, h⟩

/-- Inversion of a successful `normalizeBackupPayload`. -/
theorem normalizeBackupPayload_ok_inv (p : BackupPayloadJson) (backup : NormalizedBackup)
    (h : normalizeBackupPayload p = .ok backup) :
    (∀ ev ∈ backup.userEvents, yearFromDateKey ev.date = some backup.year) ∧
    (backup.builtinEventOverrides.map Prod.fst).Nodup ∧
    (∀ pr ∈ backup.builtinEventOverrides, effectiveOverrideYear pr.1 pr.2 = some backup.year) := by
  simp only [normalizeBackupPayload] at h
  obtain ⟨-, h⟩ := ite_error_inv h
  rcases hy : p.year with _ | year
  · rw [hy] at h
    exact Except.noConfusion h
  · rw [hy] at h
    rcases hu : p.userEvents with _ | raws
    · rw [hu] at h
      exact Except.noConfusion h
    · rw [hu] at h
      rcases ho : p.builtinEventOverrides with _ | _ | entries
      · rw [ho] at h
        cases h
        refine ⟨?_, backupOverridesFold_spec year [] [] (by simp) (by simp)⟩
        intro ev hev
        obtain ⟨raw, -, hraw⟩ := List.mem_filterMap.mp hev
        exact normalizeBackupUserEvent_year _ raw ev hraw
      · rw [ho] at h
        exact Except.noConfusion h
      · rw [ho] at h
        cases h
        refine ⟨?_, backupOverridesFold_spec year entries [] (by simp) (by simp)⟩
        intro ev hev
        obtain ⟨raw, -, hraw⟩ := List.mem_filterMap.mp hev
        exact normalizeBackupUserEvent_year _ raw ev hraw

/-- C9 counterexample: importing a year-2024 backup that contains an
override for a builtin id whose stored override has effective year 2025
(via its date field) replaces that other-year stored override — the
stored data of year 2025 is not left unchanged. -/
theorem C9_counterexample_other_year_override_replaced :
    (loadStoredBuiltinOverrides
        [("event-2024-3-2-x-1", ⟨some "2025-05-05", none, none⟩)] =
      [("event-2024-3-2-x-1", ⟨some "2025-05-05", none, none⟩)]) ∧
    effectiveOverrideYear "event-2024-3-2-x-1" ⟨some "2025-05-05", none, none⟩ = some 2025 ∧
    (2025 : Int) ≠ 2024 ∧
    (handleImportBackupFile
        ⟨.num 1, some 2024, some [], .obj [("event-2024-3-2-x-1", ⟨none, some "새 제목", none⟩)]⟩
        ⟨[], [("event-2024-3-2-x-1", ⟨some "2025-05-05", none, none⟩)]⟩).overrides.lookup
        "event-2024-3-2-x-1" = some ⟨none, some "새 제목", none⟩ ∧
    (some (⟨none, some "새 제목", none⟩ : BuiltinEventOverride) ≠
      some (⟨some "2025-05-05", none, none⟩ : BuiltinEventOverride)) := by
  refine ⟨by rfl, by rfl, by decide, by rfl, by decide⟩

/-- C9 (amended): a backup with a numeric version other than 0 or 1 is
rejected with storage untouched; on success, the stored user-event slot
becomes the backup's (year-filtered) events followed by exactly the
loaded events of other years, every backup event being dated in the
declared year; and a loaded override entry of another effective year
keeps its value unless the backup itself names the same builtin id — in
that collision case the backup's entry (whose effective year is the
declared year) replaces it (see the counterexample). -/
theorem C9_year_scoped_import :
    (∀ (p : BackupPayloadJson) (stores : PersistedStores) (n : Int),
      p.version = .num n → n ≠ 0 → n ≠ 1 →
      handleImportBackupFile p stores = stores) ∧
    (∀ (p : BackupPayloadJson) (stores : PersistedStores) (backup : NormalizedBackup),
      normalizeBackupPayload p = .ok backup →
      ((handleImportBackupFile p stores).userEvents =
        backup.userEvents ++ (loadStoredUserEvents stores.userEvents).filter
          (fun ev => yearFromDateKey ev.date ≠ some backup.year)) ∧
      (∀ ev ∈ loadStoredUserEvents stores.userEvents,
        yearFromDateKey ev.date ≠ some backup.year →
        ev ∈ (handleImportBackupFile p stores).userEvents) ∧
      (∀ ev ∈ backup.userEvents, yearFromDateKey ev.date = some backup.year) ∧
      (∀ id o, (loadStoredBuiltinOverrides stores.overrides).lookup id = some o →
        effectiveOverrideYear id o ≠ some backup.year →
        id ∉ backup.builtinEventOverrides.map Prod.fst →
        (handleImportBackupFile p stores).overrides.lookup id = some o) ∧
      (∀ pr ∈ backup.builtinEventOverrides,
        (handleImportBackupFile p stores).overrides.lookup pr.1 = some pr.2 ∧
        effectiveOverrideYear pr.1 pr.2 = some backup.year)) := by
  constructor
  · intro p stores n hv h0 h1
    have hb : ((n == 0 || n == 1) : Bool) = false := by simp [h0, h1]
    unfold handleImportBackupFile normalizeBackupPayload
    rw [hv]
    simp [hb]
  · intro p stores backup hnorm
    obtain ⟨hyev, hndb, hyov⟩ := normalizeBackupPayload_ok_inv p backup hnorm
    have himp : handleImportBackupFile p stores =
        ⟨backup.userEvents ++ (loadStoredUserEvents stores.userEvents).filter
            (fun ev => yearFromDateKey ev.date ≠ some backup.year),
          backup.builtinEventOverrides.foldl (fun acc pr => setEntry acc pr.1 pr.2)
            ((loadStoredBuiltinOverrides stores.overrides).filter
              (fun pr => effectiveOverrideYear pr.1 pr.2 ≠ some backup.year))⟩ := by
      unfold handleImportBackupFile
      rw [hnorm]
    refine ⟨by rw [himp], ?_, hyev, ?_, ?_⟩
    · intro ev hev hy
      rw [himp]
      refine List.mem_append_right _ ?_
      rw [List.mem_filter]
      exact ⟨hev, by simpa using hy⟩
    · intro id o hlook hy hnb
      rw [himp]
      have h1 : ((loadStoredBuiltinOverrides stores.overrides).filter
          (fun pr => effectiveOverrideYear pr.1 pr.2 ≠ some backup.year)).lookup id =
          some o :=
        lookup_filter_eq _ _ id o hlook (by simpa using hy)
      rw [lookup_foldl_setEntry_not_mem _ _ id hnb]
      exact h1
    · intro pr hpr
      refine ⟨?_, hyov pr hpr⟩
      rw [himp]
      exact lookup_foldl_setEntry_mem _ _ hndb pr hpr

theorem C9_year_scoped_import_witness :
    handleImportBackupFile ⟨.num 3, some 2024, some [], .missing⟩
        ⟨[⟨"user-aaa", "2023-05-05", "예산안", "예산", "manual"⟩], []⟩ =
      ⟨[⟨"user-aaa", "2023-05-05", "예산안", "예산", "manual"⟩], []⟩ :=
  C9_year_scoped_import.1 ⟨.num 3, some 2024, some [], .missing⟩
    ⟨[⟨"user-aaa", "2023-05-05", "예산안", "예산", "manual"⟩], []⟩ 3 rfl
    (by decide) (by decide)

/-! ## Civil-calendar arithmetic lemmas (for C4) -/

theorem daysFromCivil_day_linear (y m d : Int) :
    daysFromCivil y m d = daysFromCivil y m 1 + (d - 1) := by
  simp only [daysFromCivil]
  ring

theorem daysFromCivil_add_400 (y m d : Int) :
    daysFromCivil (y + 400) m d = daysFromCivil y m d + 146097 := by
  simp only [daysFromCivil, Int.fdiv_eq_ediv _ (by norm_num : (0:Int) ≤ 400),
    Int.fdiv_eq_ediv _ (by norm_num : (0:Int) ≤ 100),
    Int.fdiv_eq_ediv _ (by norm_num : (0:Int) ≤ 5),
    Int.fdiv_eq_ediv _ (by norm_num : (0:Int) ≤ 4)]
  split_ifs <;> omega

theorem civilFromDays_add_146097 (z : Int) :
    civilFromDays (z + 146097) =
      ((civilFromDays z).1 + 400, (civilFromDays z).2.1, (civilFromDays z).2.2) := by
  have hera : Int.fdiv (z + 146097 + 719468) 146097 = Int.fdiv (z + 719468) 146097 + 1 := by
    rw [Int.fdiv_eq_ediv _ (by norm_num), Int.fdiv_eq_ediv _ (by norm_num)]
    omega
  have hdoe : z + 146097 + 719468 - (Int.fdiv (z + 719468) 146097 + 1) * 146097 =
      z + 719468 - Int.fdiv (z + 719468) 146097 * 146097 := by ring
  simp only [civilFromDays]
  rw [hera, hdoe]
  split_ifs <;> simp_all [Prod.ext_iff] <;> omega

set_option maxRecDepth 20000 in
set_option maxHeartbeats 2000000 in
/-- Round-trip of the civil conversions on December 20 and 24 for the
years 1000-1399, checked by evaluation. -/
theorem civil_roundtrip_base : ∀ r : Fin 400,
    civilFromDays (daysFromCivil (1000 + (r.val : Int)) 12 20) = (1000 + (r.val : Int), 12, 20) ∧
    civilFromDays (daysFromCivil (1000 + (r.val : Int)) 12 24) = (1000 + (r.val : Int), 12, 24) := by
  decide

theorem civil_roundtrip_lift (m d base : Int)
    (hbase : civilFromDays (daysFromCivil base m d) = (base, m, d)) :
    ∀ k : Nat, civilFromDays (daysFromCivil (base + 400 * (k : Int)) m d) =
      (base + 400 * (k : Int), m, d) := by
  intro k
  induction k with
  | zero => simpa using hbase
  | succ n ih =>
    have h1 : base + 400 * ((n : Int) + 1) = base + 400 * (n : Int) + 400 := by ring
    push_cast
    rw [h1, daysFromCivil_add_400, civilFromDays_add_146097, ih]

theorem civil_roundtrip_1220 (y : Int) (h1 : 1000 ≤ y) (h2 : y ≤ 9999) :
    civilFromDays (daysFromCivil y 12 20) = (y, 12, 20) := by
  obtain ⟨r, k, hr, hy⟩ : ∃ r k : Nat, r < 400 ∧ y = (1000 + (r : Int)) + 400 * (k : Int) := by
    refine ⟨((y - 1000) % 400).toNat, ((y - 1000) / 400).toNat, ?_, ?_⟩ <;> omega
  subst hy
  exact civil_roundtrip_lift 12 20 (1000 + (r : Int)) (civil_roundtrip_base ⟨r, hr⟩).1 k

theorem civil_roundtrip_1224 (y : Int) (h1 : 1000 ≤ y) (h2 : y ≤ 9999) :
    civilFromDays (daysFromCivil y 12 24) = (y, 12, 24) := by
  obtain ⟨r, k, hr, hy⟩ : ∃ r k : Nat, r < 400 ∧ y = (1000 + (r : Int)) + 400 * (k : Int) := by
    refine ⟨((y - 1000) % 400).toNat, ((y - 1000) / 400).toNat, ?_, ?_⟩ <;> omega
  subst hy
  exact civil_roundtrip_lift 12 24 (1000 + (r : Int)) (civil_roundtrip_base ⟨r, hr⟩).2 k

theorem mkJSDate_days (y m d : Int) (h1 : 1 ≤ m) (h2 : m ≤ 12) :
    (mkJSDate y (m - 1) d).days = daysFromCivil y m d := by
  have hfd : Int.fdiv (m - 1) 12 = 0 := by
    rw [Int.fdiv_eq_ediv _ (by norm_num)]
    omega
  have hfm : Int.fmod (m - 1) 12 = m - 1 := by
    rw [Int.fmod_eq_emod _ (by norm_num)]
    omega
  simp only [mkJSDate]
  rw [hfd, hfm]
  rw [show y + 0 = y from by ring, show m - 1 + 1 = m from by ring,
    ← daysFromCivil_day_linear]

/-! ## Decimal-string lemmas (for C4) -/

theorem natDecDigitsAux_len1 (fuel n : Nat) (h1 : 1 ≤ n) (h2 : n ≤ 9) (hf : n < fuel) :
    (natDecDigitsAux fuel n).length = 1 := by
  obtain ⟨f, rfl⟩ : ∃ f, fuel = f + 1 := ⟨fuel - 1, by omega⟩
  simp only [natDecDigitsAux]
  rw [if_pos (by omega)]
  rfl

theorem natDecDigitsAux_len2 (fuel n : Nat) (h1 : 10 ≤ n) (h2 : n ≤ 99) (hf : n < fuel) :
    (natDecDigitsAux fuel n).length = 2 := by
  obtain ⟨f, rfl⟩ : ∃ f, fuel = f + 1 := ⟨fuel - 1, by omega⟩
  simp only [natDecDigitsAux]
  rw [if_neg (by omega), List.length_append,
    natDecDigitsAux_len1 f (n / 10) (by omega) (by omega) (by omega)]
  rfl

theorem natDecDigitsAux_len3 (fuel n : Nat) (h1 : 100 ≤ n) (h2 : n ≤ 999) (hf : n < fuel) :
    (natDecDigitsAux fuel n).length = 3 := by
  obtain ⟨f, rfl⟩ : ∃ f, fuel = f + 1 := ⟨fuel - 1, by omega⟩
  simp only [natDecDigitsAux]
  rw [if_neg (by omega), List.length_append,
    natDecDigitsAux_len2 f (n / 10) (by omega) (by omega) (by omega)]
  rfl

theorem natDecDigitsAux_len4 (fuel n : Nat) (h1 : 1000 ≤ n) (h2 : n ≤ 9999) (hf : n < fuel) :
    (natDecDigitsAux fuel n).length = 4 := by
  obtain ⟨f, rfl⟩ : ∃ f, fuel = f + 1 := ⟨fuel - 1, by omega⟩
  simp only [natDecDigitsAux]
  rw [if_neg (by omega), List.length_append,
    natDecDigitsAux_len3 f (n / 10) (by omega) (by omega) (by omega)]
  rfl

theorem natDecStr_length4 (n : Nat) (h1 : 1000 ≤ n) (h2 : n ≤ 9999) :
    (natDecStr n).length = 4 :=
  natDecDigitsAux_len4 (n + 1) n h1 h2 (by omega)

theorem intDecStr_nonneg (y : Int) (h : 0 ≤ y) : intDecStr y = natDecStr y.toNat := by
  unfold intDecStr
  rw [if_neg (by omega)]

theorem padStartZero_eq_self (w : Nat) (s : String) (h : w ≤ s.length) :
    padStartZero w s = s := by
  unfold padStartZero
  rw [Nat.sub_eq_zero_of_le h]
  cases s with
  | mk data => simp

theorem formatDateKey_of_civil (dt : JSDate) (y m d : Int)
    (h : civilFromDays dt.days = (y, m, d)) :
    formatDateKey dt = intDecStr y ++ "-" ++ padStartZero 2 (intDecStr m) ++ "-" ++
      padStartZero 2 (intDecStr d) := by
  unfold formatDateKey JSDate.getFullYear JSDate.getMonth JSDate.getDate
  rw [h]
  norm_num

theorem mkJSDate_eq (y m d : Int) (h1 : 1 ≤ m) (h2 : m ≤ 12) :
    mkJSDate y (m - 1) d = ⟨daysFromCivil y m d⟩ := by
  have h := mkJSDate_days y m d h1 h2
  calc mkJSDate y (m - 1) d = ⟨(mkJSDate y (m - 1) d).days⟩ := rfl
    _ = ⟨daysFromCivil y m d⟩ := by rw [h]

theorem extractRangeNums_c4 : extractRangeNums "12월 20~24일 공사" = some (12, 20, 12, 24) := by
  decide

theorem formatDateKey_1220 (y : Int) (h1 : 1000 ≤ y) (h2 : y ≤ 9999) :
    formatDateKey ⟨daysFromCivil y 12 20⟩ =
      padStartZero 4 (intDecStr y) ++ "-" ++ padStartZero 2 (natDecStr 12) ++ "-" ++
      padStartZero 2 (natDecStr 20) := by
  have hciv := civil_roundtrip_1220 y h1 h2
  have hpad : padStartZero 4 (intDecStr y) = intDecStr y := by
    rw [intDecStr_nonneg y (by omega)]
    exact padStartZero_eq_self 4 _ (le_of_eq (natDecStr_length4 y.toNat (by omega) (by omega)).symm)
  rw [formatDateKey_of_civil ⟨daysFromCivil y 12 20⟩ y 12 20 hciv, hpad]
  rfl

theorem formatDateKey_1224 (y : Int) (h1 : 1000 ≤ y) (h2 : y ≤ 9999) :
    formatDateKey ⟨daysFromCivil y 12 24⟩ =
      padStartZero 4 (intDecStr y) ++ "-" ++ padStartZero 2 (natDecStr 12) ++ "-" ++
      padStartZero 2 (natDecStr 24) := by
  have hciv := civil_roundtrip_1224 y h1 h2
  have hpad : padStartZero 4 (intDecStr y) = intDecStr y := by
    rw [intDecStr_nonneg y (by omega)]
    exact padStartZero_eq_self 4 _ (le_of_eq (natDecStr_length4 y.toNat (by omega) (by omega)).symm)
  rw [formatDateKey_of_civil ⟨daysFromCivil y 12 24⟩ y 12 24 hciv, hpad]
  rfl

/-- C4: (i) on the input `"12월 20~24일 공사"`, for any valid base date
(year 1000-9999, stated via the civil round-trip of its components) lying
strictly before December 20 of its own year, `inferExecutionWindowFromText`
returns the window from `YYYY-12-20` to `YYYY-12-24` of the base year;
(ii) in general, whenever a window is returned its start is the extracted
(start month, start day) placed in the base year unless that (month, day)
is strictly before the base date — in which case the start rolls to the
next year — and its end is the extracted (end month, end day) placed one
further year ahead exactly when the end (month, day) precedes the start
(month, day). -/
theorem C4_window_year_inference :
    (∀ yb bm bd : Int, 1000 ≤ yb → yb ≤ 9999 → 1 ≤ bm → bm ≤ 12 →
      civilFromDays (daysFromCivil yb bm bd) = (yb, bm, bd) →
      daysFromCivil yb bm bd < daysFromCivil yb 12 20 →
      inferExecutionWindowFromText "12월 20~24일 공사" ⟨daysFromCivil yb bm bd⟩ =
        some ⟨dateKey4 yb 12 20, dateKey4 yb 12 24⟩) ∧
    (∀ (text : String) (base : JSDate) (w : ExecutionWindow),
      inferExecutionWindowFromText text base = some w →
      ∃ sm sd em ed : Nat,
        extractRangeNums text = some (sm, sd, em, ed) ∧
        (let startYear := if (mkJSDate base.getFullYear ((sm : Int) - 1) (sd : Int)).days <
              (mkJSDate base.getFullYear base.getMonth base.getDate).days
            then base.getFullYear + 1 else base.getFullYear
         w.start = dateKey4 startYear sm sd ∧
         w.stop = dateKey4 (if em < sm ∨ (em = sm ∧ ed < sd) then startYear + 1 else startYear)
           em ed)) := by
  constructor
  · intro yb bm bd h1 h2 h3 h4 hrt hlt
    have hgfy : (JSDate.mk (daysFromCivil yb bm bd)).getFullYear = yb := by
      simp [JSDate.getFullYear, hrt]
    have hgm : (JSDate.mk (daysFromCivil yb bm bd)).getMonth = bm - 1 := by
      simp [JSDate.getMonth, hrt]
    have hgd : (JSDate.mk (daysFromCivil yb bm bd)).getDate = bd := by
      simp [JSDate.getDate, hrt]
    have hcand20 : mkJSDate yb 11 20 = (⟨daysFromCivil yb 12 20⟩ : JSDate) := by
      have h := mkJSDate_eq yb 12 20 (by norm_num) (by norm_num)
      norm_num at h
      exact h
    have hcand24 : mkJSDate yb 11 24 = (⟨daysFromCivil yb 12 24⟩ : JSDate) := by
      have h := mkJSDate_eq yb 12 24 (by norm_num) (by norm_num)
      norm_num at h
      exact h
    have htoday : mkJSDate yb (bm - 1) bd = (⟨daysFromCivil yb bm bd⟩ : JSDate) :=
      mkJSDate_eq yb bm bd h3 h4
    have hnot : ¬(daysFromCivil yb 12 20 < daysFromCivil yb bm bd) := by omega
    simp only [inferExecutionWindowFromText, extractRangeNums_c4]
    simp [hgfy, hgm, hgd, hnot, htoday, hcand20, hcand24,
      formatDateKey_1220 yb h1 h2, formatDateKey_1224 yb h1 h2, dateKey4]
  · intro text base w h
    unfold inferExecutionWindowFromText at h
    cases hext : extractRangeNums text with
    | none => rw [hext] at h; exact Option.noConfusion h
    | some q =>
      obtain ⟨sm, sd, em, ed⟩ := q
      rw [hext] at h
      obtain ⟨hg1, h⟩ := ite_none_inv h
      obtain ⟨hg2, h⟩ := ite_none_inv h
      obtain ⟨hg3, h⟩ := ite_none_inv h
      obtain ⟨hk1, h⟩ := ite_none_inv h
      obtain ⟨hk2, h⟩ := ite_none_inv h
      injection h with h
      refine ⟨sm, sd, em, ed, rfl, ?_, ?_⟩
      · rw [← h]
        exact not_not.mp hk1
      · rw [← h]
        refine Eq.trans (not_not.mp hk2) ?_
        exact congrArg (fun t => dateKey4 t em ed) (if_congr (by simp) rfl rfl)

theorem C4_window_year_inference_witness :
    inferExecutionWindowFromText "12월 20~24일 공사" ⟨daysFromCivil 2025 10 11⟩ =
      some ⟨dateKey4 2025 12 20, dateKey4 2025 12 24⟩ :=
  C4_window_year_inference.1 2025 10 11 (by norm_num) (by norm_num) (by norm_num)
    (by norm_num) (by decide) (by decide)

/-! ## Lexicographic comparison order lemmas -/

theorem lexCmpChars_self (a : List Char) : lexCmpChars a a = 0 := by
  induction a with
  | nil => rfl
  | cons x as ih => simp [lexCmpChars, lt_irrefl, ih]

theorem lexCmpChars_flip (a b : List Char) : lexCmpChars a b = -lexCmpChars b a := by
  induction a generalizing b with
  | nil => cases b <;> rfl
  | cons x as ih =>
    cases b with
    | nil => rfl
    | cons y bs =>
      by_cases h1 : x < y
      · simp [lexCmpChars, h1, asymm h1]
      · by_cases h2 : y < x
        · simp [lexCmpChars, h1, h2]
        · simp [lexCmpChars, h1, h2, ih bs]

theorem lexCmpChars_cons_le {x y : Char} {as bs : List Char} :
    lexCmpChars (x :: as) (y :: bs) ≤ 0 ↔ x < y ∨ (x = y ∧ lexCmpChars as bs ≤ 0) := by
  by_cases h1 : x < y
  · simp [lexCmpChars, h1]
  · by_cases h2 : y < x
    · have hne : x ≠ y := fun he => absurd (he ▸ h2) (lt_irrefl x)
      simp [lexCmpChars, h1, h2, hne]
    · have he : x = y := le_antisymm (le_of_not_lt h2) (le_of_not_lt h1)
      simp [lexCmpChars, h1, h2, he]

theorem lexCmpChars_le_trans : ∀ {a b c : List Char},
    lexCmpChars a b ≤ 0 → lexCmpChars b c ≤ 0 → lexCmpChars a c ≤ 0 := by
  intro a
  induction a with
  | nil =>
    intro b c _ _
    cases c <;> simp [lexCmpChars]
  | cons x as ih =>
    intro b c h1 h2
    cases b with
    | nil => simp [lexCmpChars] at h1
    | cons y bs =>
      cases c with
      | nil => simp [lexCmpChars] at h2
      | cons z cs =>
        rw [lexCmpChars_cons_le] at h1 h2 ⊢
        rcases h1 with h1 | ⟨h1e, h1r⟩
        · rcases h2 with h2 | ⟨h2e, h2r⟩
          · exact Or.inl (lt_trans h1 h2)
          · exact Or.inl (h2e ▸ h1)
        · rcases h2 with h2 | ⟨h2e, h2r⟩
          · exact Or.inl (h1e ▸ h2)
          · exact Or.inr ⟨h1e.trans h2e, ih h1r h2r⟩

theorem compareDateKey_self (a : String) : compareDateKey a a = 0 :=
  lexCmpChars_self a.data

theorem compareDateKey_flip (a b : String) : compareDateKey a b = -compareDateKey b a :=
  lexCmpChars_flip a.data b.data

theorem compareDateKey_le_trans {a b c : String}
    (h1 : compareDateKey a b ≤ 0) (h2 : compareDateKey b c ≤ 0) : compareDateKey a c ≤ 0 :=
  lexCmpChars_le_trans h1 h2

/-- The result of `clampMaxDateKey` is at most the bound. -/
theorem clampMax_le_bound (d m : String) : compareDateKey (clampMaxDateKey d m) m ≤ 0 := by
  unfold clampMaxDateKey
  by_cases h : compareDateKey d m > 0
  · rw [if_pos h, compareDateKey_self]
  · rw [if_neg h]; omega

/-- The result of `clampMinDateKey` is at least the bound. -/
theorem clampMin_ge_bound (d m : String) : compareDateKey m (clampMinDateKey d m) ≤ 0 := by
  unfold clampMinDateKey
  by_cases h : compareDateKey d m < 0
  · rw [if_pos h, compareDateKey_self]
  · rw [if_neg h, compareDateKey_flip]; omega

/-- The result of `clampMinDateKey` is at most the larger of its inputs. -/
theorem clampMin_le_of_le {d m b : String} (hd : compareDateKey d b ≤ 0)
    (hm : compareDateKey m b ≤ 0) : compareDateKey (clampMinDateKey d m) b ≤ 0 := by
  unfold clampMinDateKey
  by_cases h : compareDateKey d m < 0
  · rw [if_pos h]; exact hm
  · rw [if_neg h]; exact hd

/-- A lower bound on the clamped value survives `clampMinDateKey`. -/
theorem clampMin_preserves_lb {b d m : String} (h : compareDateKey b d ≤ 0) :
    compareDateKey b (clampMinDateKey d m) ≤ 0 := by
  unfold clampMinDateKey
  by_cases hc : compareDateKey d m < 0
  · rw [if_pos hc]
    exact compareDateKey_le_trans h (by omega)
  · rw [if_neg hc]; exact h

/-! ## Execution-window clamping: C2 -/

/-- C2 counterexample: the claim as stated fails when the inferred window
starts on the request day itself (reachable: asking on 2025-10-11 about
work on 10월 11~12일 yields `start = today`). The pre-work item dated
2025-10-13 — after the window start — is clamped to 2025-10-11 (the
window start, `max(start − 1, today)`), not to at most one day before
the start (2025-10-10). -/
theorem C2_counterexample_window_starting_today :
    inferExecutionWindowFromText "10월 11~12일 공사" ⟨daysFromCivil 2025 10 11⟩ =
      some ⟨"2025-10-11", "2025-10-12"⟩ ∧
    formatDateKey ⟨daysFromCivil 2025 10 11⟩ = "2025-10-11" ∧
    isPreWorkTitle "현수막: 품의 상신" = true ∧
    compareDateKey "2025-10-13" "2025-10-11" > 0 ∧
    (clampItemToWindow "2025-10-11" "2025-10-11" "2025-10-12"
        ⟨"2025-10-13", "현수막: 품의 상신", "기타"⟩).date = "2025-10-11" ∧
    shiftDateKeyByDays "2025-10-11" (-1) = "2025-10-10" ∧
    ¬(compareDateKey "2025-10-11" "2025-10-10" ≤ 0) := by
  refine ⟨by rfl, by rfl, by rfl, by decide, by rfl, by rfl, by decide⟩

/-- C2 (amended): under a window inferred for the request day
(`today ≤ start ≤ end`), the per-item clamp bounds every pre-work item's
date by `max(start − 1 day, today)` — hence by one day before the window
start whenever `today` is at most `start − 1`, while a window starting
today clamps pre-work to today instead (see the counterexample); every
post-work item is clamped to at least the window end; every unclassified
item is clamped into `[start, end]`. -/
theorem C2_window_clamping (todayKey startKey endKey : String) (item : ScheduleProposalItem)
    (hts : compareDateKey todayKey startKey ≤ 0)
    (hse : compareDateKey startKey endKey ≤ 0) :
    (isPreWorkTitle item.title = true →
      compareDateKey (clampItemToWindow todayKey startKey endKey item).date
        (clampMinDateKey (shiftDateKeyByDays startKey (-1)) todayKey) ≤ 0 ∧
      (compareDateKey todayKey (shiftDateKeyByDays startKey (-1)) ≤ 0 →
        compareDateKey (clampItemToWindow todayKey startKey endKey item).date
          (shiftDateKeyByDays startKey (-1)) ≤ 0)) ∧
    (isPreWorkTitle item.title = false → isPostWorkTitle item.title = true →
      compareDateKey endKey (clampItemToWindow todayKey startKey endKey item).date ≤ 0) ∧
    (isPreWorkTitle item.title = false → isPostWorkTitle item.title = false →
      compareDateKey startKey (clampItemToWindow todayKey startKey endKey item).date ≤ 0 ∧
      compareDateKey (clampItemToWindow todayKey startKey endKey item).date endKey ≤ 0) := by
  refine ⟨?_, ?_, ?_⟩
  · intro hpre
    have hbound : compareDateKey (clampItemToWindow todayKey startKey endKey item).date
        (clampMinDateKey (shiftDateKeyByDays startKey (-1)) todayKey) ≤ 0 := by
      unfold clampItemToWindow
      simp only [hpre, if_true]
      exact clampMin_le_of_le
        (clampMax_le_bound item.date (clampMinDateKey (shiftDateKeyByDays startKey (-1)) todayKey))
        (clampMin_ge_bound (shiftDateKeyByDays startKey (-1)) todayKey)
    refine ⟨hbound, fun hp1 => ?_⟩
    have hP : clampMinDateKey (shiftDateKeyByDays startKey (-1)) todayKey =
        shiftDateKeyByDays startKey (-1) := by
      unfold clampMinDateKey
      rw [if_neg]
      rw [compareDateKey_flip]
      omega
    rw [hP] at hbound
    exact hbound
  · intro hpre hpost
    unfold clampItemToWindow
    simp only [hpre, Bool.false_eq_true, if_false, hpost, if_true]
    have hte : compareDateKey endKey (clampMinDateKey endKey todayKey) ≤ 0 := by
      unfold clampMinDateKey
      by_cases h : compareDateKey endKey todayKey < 0
      · rw [if_pos h]; omega
      · rw [if_neg h, compareDateKey_self]
    have h1 : compareDateKey endKey
        (clampMinDateKey item.date (clampMinDateKey endKey todayKey)) ≤ 0 :=
      compareDateKey_le_trans hte (clampMin_ge_bound item.date (clampMinDateKey endKey todayKey))
    exact clampMin_preserves_lb h1
  · intro hpre hpost
    unfold clampItemToWindow
    simp only [hpre, Bool.false_eq_true, if_false, hpost]
    set d1 := if compareDateKey item.date startKey < 0 then startKey else item.date with hd1
    set d2 := if compareDateKey d1 endKey > 0 then endKey else d1 with hd2
    have hsd1 : compareDateKey startKey d1 ≤ 0 := by
      rw [hd1]
      by_cases h : compareDateKey item.date startKey < 0
      · rw [if_pos h, compareDateKey_self]
      · rw [if_neg h, compareDateKey_flip]; omega
    have hsd2 : compareDateKey startKey d2 ≤ 0 := by
      rw [hd2]
      by_cases h : compareDateKey d1 endKey > 0
      · rw [if_pos h]; exact hse
      · rw [if_neg h]; exact hsd1
    have hd2e : compareDateKey d2 endKey ≤ 0 := by
      rw [hd2]
      by_cases h : compareDateKey d1 endKey > 0
      · rw [if_pos h, compareDateKey_self]
      · rw [if_neg h]; omega
    have hres : clampMinDateKey d2 todayKey = d2 := by
      unfold clampMinDateKey
      rw [if_neg]
      intro hlt
      have h1 : compareDateKey todayKey d2 ≤ 0 := compareDateKey_le_trans hts hsd2
      rw [compareDateKey_flip] at hlt
      omega
    rw [hres]
    exact ⟨hsd2, hd2e⟩

theorem C2_window_clamping_witness :
    ((compareDateKey "2025-10-10" "2025-12-20" ≤ 0) ∧ (compareDateKey "2025-12-20" "2025-12-24" ≤ 0)) ∧
    (isPreWorkTitle "현수막: 품의 상신" = true →
      compareDateKey (clampItemToWindow "2025-10-10" "2025-12-20" "2025-12-24"
          ⟨"2025-12-25", "현수막: 품의 상신", "기타"⟩).date
        (clampMinDateKey (shiftDateKeyByDays "2025-12-20" (-1)) "2025-10-10") ≤ 0 ∧
      (compareDateKey "2025-10-10" (shiftDateKeyByDays "2025-12-20" (-1)) ≤ 0 →
        compareDateKey (clampItemToWindow "2025-10-10" "2025-12-20" "2025-12-24"
            ⟨"2025-12-25", "현수막: 품의 상신", "기타"⟩).date
          (shiftDateKeyByDays "2025-12-20" (-1)) ≤ 0)) :=
  ⟨⟨by decide, by decide⟩,
    (C2_window_clamping "2025-10-10" "2025-12-20" "2025-12-24"
      ⟨"2025-12-25", "현수막: 품의 상신", "기타"⟩ (by decide) (by decide)).1⟩

/-! ## Proposal validation, dedup and cap: C3 -/

theorem dedupeByKey_spec (items : List ScheduleProposalItem) (seen : List String) :
    ((dedupeByKey items seen).map itemKey).Nodup ∧
    (∀ k ∈ (dedupeByKey items seen).map itemKey, k ∉ seen) ∧
    (dedupeByKey items seen).Sublist items ∧
    (∀ x ∈ dedupeByKey items seen, items.find? (fun y => itemKey y == itemKey x) = some x) ∧
    (∀ x ∈ items, itemKey x ∉ seen → itemKey x ∈ (dedupeByKey items seen).map itemKey) := by
  induction items generalizing seen with
  | nil => simp [dedupeByKey]
  | cons item rest ih =>
    by_cases hk : seen.contains (itemKey item) = true
    · have hkm : itemKey item ∈ seen := by simpa using hk
      have hred : dedupeByKey (item :: rest) seen = dedupeByKey rest seen := by
        simp only [dedupeByKey, hk, if_true]
      rw [hred]
      obtain ⟨ihn, ihs, ihsub, ihf, ihc⟩ := ih seen
      refine ⟨ihn, ihs, ihsub.cons item, ?_, ?_⟩
      · intro x hx
        have hxk : itemKey x ∉ seen := ihs (itemKey x) (List.mem_map_of_mem itemKey hx)
        have hne : (itemKey item == itemKey x) = false := by
          simp only [beq_eq_false_iff_ne, ne_eq]
          intro he
          exact hxk (he ▸ hkm)
        rw [List.find?_cons_of_neg _ (by simp [hne])]
        exact ihf x hx
      · intro x hx hnot
        rcases List.mem_cons.mp hx with rfl | hx'
        · exact absurd hkm hnot
        · exact ihc x hx' hnot
    · have hknm : itemKey item ∉ seen := by
        intro hm; exact hk (by simpa using hm)
      have hred : dedupeByKey (item :: rest) seen =
          item :: dedupeByKey rest (itemKey item :: seen) := by
        simp only [dedupeByKey, hk, Bool.false_eq_true, if_false]
      rw [hred]
      obtain ⟨ihn, ihs, ihsub, ihf, ihc⟩ := ih (itemKey item :: seen)
      refine ⟨?_, ?_, ihsub.cons₂ item, ?_, ?_⟩
      · simp only [List.map, List.nodup_cons]
        refine ⟨?_, ihn⟩
        intro hmem
        exact ihs (itemKey item) hmem (List.mem_cons_self _ _)
      · intro k hkm2
        rcases List.mem_cons.mp hkm2 with rfl | hkm2'
        · exact hknm
        · exact fun hs => ihs k hkm2' (List.mem_cons_of_mem _ hs)
      · intro x hx
        rcases List.mem_cons.mp hx with rfl | hx'
        · rw [List.find?_cons_of_pos _ (by simp)]
        · have hxk : itemKey x ∉ itemKey item :: seen :=
            ihs (itemKey x) (List.mem_map_of_mem itemKey hx')
          have hne : (itemKey item == itemKey x) = false := by
            simp only [beq_eq_false_iff_ne, ne_eq]
            intro he
            exact hxk (he ▸ List.mem_cons_self _ _)
          rw [List.find?_cons_of_neg _ (by simp [hne])]
          exact ihf x hx'
      · intro x hx hnot
        rcases List.mem_cons.mp hx with rfl | hx'
        · exact List.mem_cons_self _ _
        · by_cases heq : itemKey x = itemKey item
          · simp [heq]
          · have : itemKey x ∉ itemKey item :: seen := by
              intro hm
              rcases List.mem_cons.mp hm with h | h
              · exact heq h
              · exact hnot h
            exact List.mem_cons_of_mem _ (ihc x hx' this)

/-- C3: every model event whose date is not a valid calendar key is
rejected; every surviving item carries its (valid) date, a non-empty
resolved title, and a category that falls back to the default '기타'
exactly when the model's category is outside the fixed enumeration; the
survivors are deduplicated by `(date, title)` key preserving first
occurrence and capped at 4; and the claim's concrete payload — project
'현수막' with two identical events dated 2025-01-01, task '품의' —
yields the single proposal item `2025-01-01 / 현수막: 품의 / 기타`. -/
theorem C3_validation_dedup_cap :
    DEFAULT_EVENT_CATEGORY = "기타" ∧
    (∀ (project : String) (ev : ParsedEventJson) (item : ScheduleProposalItem),
      mapCandidateEvent project ev = some item →
        (∃ d, ev.date = some d ∧ isValidDateKey d = true ∧ item.date = d) ∧
        item.title ≠ "" ∧
        (asEventCategory ev.category = none → item.category = DEFAULT_EVENT_CATEGORY) ∧
        (∀ c, asEventCategory ev.category = some c → item.category = c)) ∧
    (∀ (project : String) (ev : ParsedEventJson) (d : String), ev.date = some d →
      isValidDateKey d = false → mapCandidateEvent project ev = none) ∧
    (∀ items : List ScheduleProposalItem,
      ((dedupeByKey items []).map itemKey).Nodup ∧
      (dedupeByKey items []).Sublist items ∧
      (∀ x ∈ dedupeByKey items [], items.find? (fun y => itemKey y == itemKey x) = some x) ∧
      (∀ x ∈ items, itemKey x ∈ (dedupeByKey items []).map itemKey)) ∧
    (∀ (todayKey : String) (items : List ScheduleProposalItem),
      (initialProposedItems todayKey items).length ≤ 4) ∧
    resolveProject (some "현수막") "12월 24일 현수막 달기" = "현수막" ∧
    initialProposedItems "2024-12-01"
        (candidateEventsOf "현수막" ⟨some "현수막", none,
          some [⟨some "2025-01-01", some "품의", none, none⟩,
                ⟨some "2025-01-01", some "품의", none, none⟩]⟩) =
      [⟨"2025-01-01", "현수막: 품의", "기타"⟩] := by
  refine ⟨rfl, ?_, ?_, ?_, ?_, by rfl, by rfl⟩
  · intro project ev item h
    rcases hdate : ev.date with _ | d
    · rcases htask : ev.task with _ | t <;> rcases htitle : ev.title with _ | tt <;>
        simp [mapCandidateEvent, htask, htitle, hdate] at h
    · cases hvalid : isValidDateKey d
      · rcases htask : ev.task with _ | t <;> rcases htitle : ev.title with _ | tt <;>
          simp [mapCandidateEvent, htask, htitle, hdate, hvalid] at h
      · rcases htask : ev.task with _ | t
        · rcases htitle : ev.title with _ | tt
          · simp [mapCandidateEvent, htask, htitle, hdate, hvalid] at h
          · simp only [mapCandidateEvent, htask, htitle, hdate, hvalid, Bool.not_true,
              Bool.false_eq_true, if_false] at h
            repeat' split at h
            all_goals try exact Option.noConfusion h
            all_goals
              (cases h;
               exact ⟨⟨d, rfl, hvalid, rfl⟩, by assumption, fun hc => by simp [hc],
                 fun c hc => by simp [hc]⟩)
        · simp only [mapCandidateEvent, htask, hdate, hvalid, Bool.not_true,
            Bool.false_eq_true, if_false] at h
          repeat' split at h
          all_goals try exact Option.noConfusion h
          all_goals
            (cases h;
             exact ⟨⟨d, rfl, hvalid, rfl⟩, by assumption, fun hc => by simp [hc],
               fun c hc => by simp [hc]⟩)
  · intro project ev d hdate hbad
    rcases htask : ev.task with _ | t <;> rcases htitle : ev.title with _ | tt <;>
      simp [mapCandidateEvent, htask, htitle, hdate, hbad]
  · intro items
    obtain ⟨hn, hs, hsub, hf, hc⟩ := dedupeByKey_spec items []
    exact ⟨hn, hsub, hf, fun x hx => hc x hx (by simp)⟩
  · intro todayKey items
    unfold initialProposedItems
    rw [List.length_map]
    exact List.length_take_le 4 _

theorem C3_validation_dedup_cap_witness :
    (∃ d, (some "2025-01-01" : Option String) = some d ∧ isValidDateKey d = true ∧
      (⟨"2025-01-01", "현수막: 품의", "기타"⟩ : ScheduleProposalItem).date = d) ∧
    (⟨"2025-01-01", "현수막: 품의", "기타"⟩ : ScheduleProposalItem).title ≠ "" ∧
    (asEventCategory (none : Option String) = none →
      (⟨"2025-01-01", "현수막: 품의", "기타"⟩ : ScheduleProposalItem).category =
        DEFAULT_EVENT_CATEGORY) ∧
    (∀ c, asEventCategory (none : Option String) = some c →
      (⟨"2025-01-01", "현수막: 품의", "기타"⟩ : ScheduleProposalItem).category = c) :=
  C3_validation_dedup_cap.2.1 "현수막" ⟨some "2025-01-01", some "품의", none, none⟩
    ⟨"2025-01-01", "현수막: 품의", "기타"⟩ (by rfl)

theorem collectAdded_spec (items : List ScheduleProposalItem) (keys : List String) (n : Nat) :
    (∀ ev ∈ (collectAdded items keys n).1, ev.source = "ai") ∧
    ((collectAdded items keys n).1.map eventKey).Nodup ∧
    (∀ ev ∈ (collectAdded items keys n).1,
      eventKey ev ∉ keys ∧ eventKey ev ∈ items.map itemKey) ∧
    (∀ it ∈ items, itemKey it ∉ keys →
      itemKey it ∈ (collectAdded items keys n).1.map eventKey) := by
  induction items generalizing keys n with
  | nil => simp [collectAdded]
  | cons item rest ih =>
    by_cases hk : keys.contains (item.date ++ "::" ++ item.title) = true
    · have hkm : (item.date ++ "::" ++ item.title) ∈ keys := by simpa using hk
      have hred : collectAdded (item :: rest) keys n = collectAdded rest keys n := by
        simp only [collectAdded, hk, if_true]
      rw [hred]
      obtain ⟨ihs, ihn, ihm, ihc⟩ := ih keys n
      refine ⟨ihs, ihn, ?_, ?_⟩
      · intro ev hev
        obtain ⟨h1, h2⟩ := ihm ev hev
        exact ⟨h1, by simp [h2]⟩
      · intro it hit hnot
        rcases List.mem_cons.mp hit with rfl | hit'
        · exact absurd hkm hnot
        · exact ihc it hit' hnot
    · have hknm : (item.date ++ "::" ++ item.title) ∉ keys := by
        intro hmem
        exact hk (by simpa using hmem)
      have hred : collectAdded (item :: rest) keys n =
          (⟨"user-" ++ natDecStr n, item.date, item.title, item.category, "ai"⟩ ::
            (collectAdded rest ((item.date ++ "::" ++ item.title) :: keys) (n + 1)).1,
           (collectAdded rest ((item.date ++ "::" ++ item.title) :: keys) (n + 1)).2) := by
        simp only [collectAdded, hk, Bool.false_eq_true, if_false]
      rw [hred]
      obtain ⟨ihs, ihn, ihm, ihc⟩ := ih ((item.date ++ "::" ++ item.title) :: keys) (n + 1)
      have hek : eventKey ⟨"user-" ++ natDecStr n, item.date, item.title, item.category, "ai"⟩
          = item.date ++ "::" ++ item.title := rfl
      refine ⟨?_, ?_, ?_, ?_⟩
      · intro ev hev
        rcases List.mem_cons.mp hev with rfl | hev'
        · rfl
        · exact ihs ev hev'
      · simp only [List.map, hek, List.nodup_cons]
        refine ⟨?_, ihn⟩
        intro hmem
        obtain ⟨ev, hev, hkey⟩ := List.mem_map.mp hmem
        exact (ihm ev hev).1 (hkey ▸ List.mem_cons_self _ _)
      · intro ev hev
        rcases List.mem_cons.mp hev with rfl | hev'
        · exact ⟨by simpa using hknm, by simp [hek, itemKey]⟩
        · obtain ⟨h1, h2⟩ := ihm ev hev'
          exact ⟨fun hm => h1 (List.mem_cons_of_mem _ hm), by simp [h2]⟩
      · intro it hit hnot
        rcases List.mem_cons.mp hit with rfl | hit'
        · simp [hek, itemKey]
        · by_cases heq : itemKey it = item.date ++ "::" ++ item.title
          · simp [hek, heq]
          · have : itemKey it ∉ (item.date ++ "::" ++ item.title) :: keys := by
              intro hm
              rcases List.mem_cons.mp hm with h | h
              · exact heq h
              · exact hnot h
            have := ihc it hit' this
            simp only [List.map, hek]
            exact List.mem_cons_of_mem _ this

theorem find?_map_preserving_id (f : ChatMsg → ChatMsg) (hf : ∀ m, (f m).id = m.id)
    (mid : String) (l : List ChatMsg) :
    (l.map f).find? (fun m => m.id == mid) = (l.find? (fun m => m.id == mid)).map f := by
  induction l with
  | nil => rfl
  | cons hd tl ih =>
    by_cases hph : (hd.id == mid) = true
    · rw [List.map_cons,
        @List.find?_cons_of_pos _ (fun m => m.id == mid) (f hd) (List.map f tl)
          (show ((f hd).id == mid) = true by rw [hf]; exact hph),
        @List.find?_cons_of_pos _ (fun m => m.id == mid) hd tl hph]
      rfl
    · rw [List.map_cons,
        @List.find?_cons_of_neg _ (fun m => m.id == mid) (f hd) (List.map f tl)
          (show ¬((f hd).id == mid) = true by rw [hf]; exact hph),
        @List.find?_cons_of_neg _ (fun m => m.id == mid) hd tl hph]
      exact ih

/-- C1: applying a not-yet-applied proposal with at least one selected
item commits exactly one new `source = "ai"` user event per selected
item whose `(date, title)` key is not already among the persisted user
events, with duplicate keys inside the same call added only once
(pairwise distinct keys of the added events, none colliding with an
existing key, and every selected fresh key covered); the merged list is
persisted; the proposal is marked applied with `appliedCount` the number
added and `skippedCount` the remainder; a second apply on the result is
a no-op. -/
theorem C1_apply_proposal_commit (s : ChatState) (mid : String)
    (target : ChatMsg) (p : ScheduleProposal)
    (hfind : s.messages.find? (fun m => m.id == mid) = some target)
    (hprop : target.scheduleProposal = some p)
    (hnot : p.applied = false)
    (hsel : selectedItemsOf p ≠ []) :
    ∃ added : List StoredUserEvent,
      (applyScheduleProposal mid s).storage = added ++ loadUserEventsFromStorage s.storage ∧
      (∀ ev ∈ added, ev.source = "ai") ∧
      (added.map eventKey).Nodup ∧
      (∀ ev ∈ added,
        eventKey ev ∉ (loadUserEventsFromStorage s.storage).map eventKey ∧
        eventKey ev ∈ (selectedItemsOf p).map itemKey) ∧
      (∀ it ∈ selectedItemsOf p,
        itemKey it ∉ (loadUserEventsFromStorage s.storage).map eventKey →
        itemKey it ∈ added.map eventKey) ∧
      (∃ t2, (applyScheduleProposal mid s).messages.find? (fun m => m.id == mid) = some t2 ∧
        t2.scheduleProposal = some { p with
          applied := true,
          appliedCount := some added.length,
          skippedCount := some ((selectedItemsOf p).length - added.length) }) ∧
      applyScheduleProposal mid (applyScheduleProposal mid s) = applyScheduleProposal mid s := by
  have hlen : ¬(selectedItemsOf p).length = 0 := by
    simpa [List.length_eq_zero] using hsel
  have happly : applyScheduleProposal mid s =
      { messages := s.messages.map (fun msg =>
          if msg.id == mid then
            { msg with
              text := jsTrim (msg.text ++ "\n\n" ++ String.intercalate "\n"
                (applySummaryLines p (collectAdded (selectedItemsOf p)
                  ((loadUserEventsFromStorage s.storage).map eventKey) s.nextId).1)),
              scheduleProposal := some { p with
                applied := true,
                appliedCount := some (collectAdded (selectedItemsOf p)
                  ((loadUserEventsFromStorage s.storage).map eventKey) s.nextId).1.length,
                skippedCount := some ((selectedItemsOf p).length -
                  (collectAdded (selectedItemsOf p)
                    ((loadUserEventsFromStorage s.storage).map eventKey) s.nextId).1.length) } }
          else msg),
        storage := (collectAdded (selectedItemsOf p)
            ((loadUserEventsFromStorage s.storage).map eventKey) s.nextId).1 ++
          loadUserEventsFromStorage s.storage,
        nextId := (collectAdded (selectedItemsOf p)
          ((loadUserEventsFromStorage s.storage).map eventKey) s.nextId).2,
        notifications := s.notifications + 1 } := by
    simp only [applyScheduleProposal, hfind, hprop, hnot, Bool.false_eq_true, if_false,
      hlen, eventKey]
  obtain ⟨hsrc, hnd, hmem, hcov⟩ := collectAdded_spec (selectedItemsOf p)
    ((loadUserEventsFromStorage s.storage).map eventKey) s.nextId
  have htid : (target.id == mid) = true :=
    @List.find?_some _ (fun m => m.id == mid) target s.messages hfind
  have hfind2 : (applyScheduleProposal mid s).messages.find? (fun m => m.id == mid) =
      some { target with
        text := jsTrim (target.text ++ "\n\n" ++ String.intercalate "\n"
          (applySummaryLines p (collectAdded (selectedItemsOf p)
            ((loadUserEventsFromStorage s.storage).map eventKey) s.nextId).1)),
        scheduleProposal := some { p with
          applied := true,
          appliedCount := some (collectAdded (selectedItemsOf p)
            ((loadUserEventsFromStorage s.storage).map eventKey) s.nextId).1.length,
          skippedCount := some ((selectedItemsOf p).length -
            (collectAdded (selectedItemsOf p)
              ((loadUserEventsFromStorage s.storage).map eventKey) s.nextId).1.length) } } := by
    rw [happly]
    rw [find?_map_preserving_id _ (fun m => by split <;> rfl) mid, hfind]
    have htid2 : target.id = mid := by simpa using htid
    simp [htid2]
  refine ⟨(collectAdded (selectedItemsOf p)
      ((loadUserEventsFromStorage s.storage).map eventKey) s.nextId).1,
    by rw [happly], hsrc, hnd, hmem, hcov, ⟨_, hfind2, rfl⟩, ?_⟩
  generalize hgen : applyScheduleProposal mid s = s2 at hfind2
  simp only [applyScheduleProposal, hfind2]
  simp

theorem C1_apply_proposal_commit_witness :
    ∃ added : List StoredUserEvent,
      (applyScheduleProposal "m1" chatStateC1).storage =
        added ++ loadUserEventsFromStorage chatStateC1.storage ∧
      (∀ ev ∈ added, ev.source = "ai") ∧
      (added.map eventKey).Nodup ∧
      (∀ ev ∈ added,
        eventKey ev ∉ (loadUserEventsFromStorage chatStateC1.storage).map eventKey ∧
        eventKey ev ∈ (selectedItemsOf proposalC1).map itemKey) ∧
      (∀ it ∈ selectedItemsOf proposalC1,
        itemKey it ∉ (loadUserEventsFromStorage chatStateC1.storage).map eventKey →
        itemKey it ∈ added.map eventKey) ∧
      (∃ t2, (applyScheduleProposal "m1" chatStateC1).messages.find? (fun m => m.id == "m1") =
          some t2 ∧
        t2.scheduleProposal = some { proposalC1 with
          applied := true,
          appliedCount := some added.length,
          skippedCount := some ((selectedItemsOf proposalC1).length - added.length) }) ∧
      applyScheduleProposal "m1" (applyScheduleProposal "m1" chatStateC1) =
        applyScheduleProposal "m1" chatStateC1 :=
  C1_apply_proposal_commit chatStateC1 "m1" chatMsgC1 proposalC1 rfl rfl rfl (by decide)

theorem C5_override_pruning_witness :
    ((moveBuiltinOverride [("event-2025-3-2-x-1", ⟨some "2025-04-01", none, none⟩)]
        "event-2025-3-2-x-1" "2025-03-02" "2025-03-02").lookup "event-2025-3-2-x-1" = none ∨
      ∃ o, (moveBuiltinOverride [("event-2025-3-2-x-1", ⟨some "2025-04-01", none, none⟩)]
        "event-2025-3-2-x-1" "2025-03-02" "2025-03-02").lookup "event-2025-3-2-x-1" = some o ∧
        o.date = none ∧ overrideIsEmpty o = false) :=
  (C5_override_pruning [("event-2025-3-2-x-1", ⟨some "2025-04-01", none, none⟩)]
    "event-2025-3-2-x-1" ⟨"2025-03-02", "예산편성", "예산"⟩ (by decide)).2.1

end SmartCal
